import Mathlib

/-!
Shallow embedding of the LingoView offline dictionary-build pipeline
(`scripts/dictionaries/build.ts` and `scripts/dictionaries/types.ts`),
together with theorems settling the frozen claims about it.

JavaScript strings are modelled as Lean `String` (lists of characters);
the ASCII-only lowercasing of `Char.toLower` agrees with JS
`toLowerCase` on every character the relevant regexes keep.  JS `Set`
objects are modelled as insertion-ordered duplicate-free lists
(`jsDedup`), JS `Map` objects as insertion-ordered association lists,
and `JSON.stringify` of a list field is modelled as the list itself
(serialization is injective on the payloads at hand).
-/

namespace DictBuild

/-- JS whitespace as used by `\s`, `trim` and the build script's data
(ASCII whitespace characters). -/
def isJsSpace (c : Char) : Bool :=
  c = ' ' || c = '\t' || c = '\n' || c = '\r' || c = '\x0b' || c = '\x0c'

/-- Characters the regex character class `[a-z'-]` accepts. -/
def isKeyChar (c : Char) : Bool :=
  ('a' ≤ c && c ≤ 'z') || c = '\'' || c = '-'

/-- JS `String.prototype.trim` on a character list. -/
def trimList (cs : List Char) : List Char :=
  ((cs.dropWhile isJsSpace).reverse.dropWhile isJsSpace).reverse

/-- JS `String.prototype.trim`. -/
def jsTrim (s : String) : String := String.mk (trimList s.toList)

/-- JS `String.prototype.toLowerCase` (ASCII range). -/
def jsLower (s : String) : String := String.mk (s.toList.map Char.toLower)

/-- Insertion-ordered deduplication: the element order of a JS `Set`
built by inserting the list's elements left to right. -/
def jsDedupAux {α : Type} [DecidableEq α] (seen : List α) : List α → List α
  | [] => []
  | x :: xs =>
    if x ∈ seen then jsDedupAux seen xs
    else x :: jsDedupAux (x :: seen) xs

/-- `Array.from(new Set(l))` in JS. -/
def jsDedup {α : Type} [DecidableEq α] (l : List α) : List α := jsDedupAux [] l

/-- Split a string at every character satisfying `p` (JS
`String.prototype.split` with a single-character class). -/
def splitOnPredAux (p : Char → Bool) (acc : List Char) : List Char → List String
  | [] => [String.mk acc.reverse]
  | c :: rest =>
    if p c then String.mk acc.reverse :: splitOnPredAux p [] rest
    else splitOnPredAux p (c :: acc) rest

/-- Split a string at every character satisfying `p`. -/
def splitOnPred (p : Char → Bool) (s : String) : List String :=
  splitOnPredAux p [] s.toList

/-- Replace every run of JS whitespace by a single space
(JS `replace(/\s+/g, ' ')`). -/
def collapseSpacesAux : List Char → Bool → List Char
  | [], _ => []
  | c :: cs, inRun =>
    if isJsSpace c then
      if inRun then collapseSpacesAux cs true
      else ' ' :: collapseSpacesAux cs true
    else c :: collapseSpacesAux cs false

/-- JS `replace(/\s+/g, ' ')`. -/
def collapseSpaces (cs : List Char) : List Char := collapseSpacesAux cs false

/-- A value stored in a `DictionaryEntry`'s open `metadata` bag. -/
inductive MetaVal where
  | str : String → MetaVal
  | nat : Nat → MetaVal
  | list : List String → MetaVal
deriving DecidableEq

/-- `DictionaryEntry` from `scripts/dictionaries/types.ts`.  The optional
`forms` and `pos` arrays are modelled as plain lists (every use in the
build script treats a missing array and an empty array identically). -/
structure DictionaryEntry where
  word : String
  reading : Option String := none
  pronunciation : Option String := none
  forms : List String := []
  pos : List String := []
  definitions : List String
  source : Option String := none
  metadata : Option (List (String × MetaVal)) := none
deriving DecidableEq

/-- A JS `Map<string, string[]>`: insertion-ordered association list. -/
abbrev TranslationMap := List (String × List String)

/-- `Map.prototype.get` (first binding of the key). -/
def mapGet (m : TranslationMap) (k : String) : Option (List String) :=
  match m with
  | [] => none
  | (k', v) :: rest => if k' = k then some v else mapGet rest k

/-- `Map.prototype.set`: overwrite in place, else append. -/
def mapSet (m : TranslationMap) (k : String) (v : List String) : TranslationMap :=
  match m with
  | [] => [(k, v)]
  | (k', v') :: rest =>
    if k' = k then (k', v) :: rest else (k', v') :: mapSet rest k v

/-- `addToMap` from build.ts: skip falsy keys, else union the values
into the key's existing list (JS `Set` union, insertion order). -/
def addToMap (m : TranslationMap) (key : String) (values : List String) : TranslationMap :=
  if key = "" then m
  else mapSet m key (jsDedup ((mapGet m key).getD [] ++ values))

/-- Merging one Translation Map into another, as `loadJmdict` does:
start from a copy of the first map and `addToMap` every binding of the
second. -/
def mergeMaps (a b : TranslationMap) : TranslationMap :=
  b.foldl (fun acc kv => addToMap acc kv.1 kv.2) a

/-- `normalizeEnglishKey` from build.ts: lowercase, then register up to
two candidate keys — the phrase with characters outside `[a-z\s'-]`
replaced by spaces (trimmed, whitespace collapsed), and the compacted
variant with every character outside `[a-z'-]` removed. -/
def normalizeEnglishKey (value : String) : List String :=
  let lowercase := jsLower value
  let words := String.mk (collapseSpaces (trimList
    (lowercase.toList.map (fun c => if isKeyChar c || isJsSpace c then c else ' '))))
  let compact := String.mk (lowercase.toList.filter isKeyChar)
  (if words ≠ "" then [words] else []) ++
    (if compact ≠ "" && compact ≠ words then [compact] else [])

/-- `normaliseForLanguage` from build.ts. -/
def normaliseForLanguage (language : String) (value : String) : String :=
  if value = "" then ""
  else
    let trimmed := jsTrim value
    if trimmed = "" then ""
    else if language = "en" || language = "en-zh" then
      String.mk ((jsLower trimmed).toList.filter isKeyChar)
    else trimmed

/-- The row shape produced by `toRowPayload` (serialized list columns
are modelled as the lists themselves). -/
structure RowPayload where
  normalized : String
  term : String
  reading : Option String
  pronunciation : Option String
  forms : Option (List String)
  pos : Option (List String)
  definitions : List String
  source : Option String
  metadata : Option (List (String × MetaVal))
deriving DecidableEq

/-- `toRowPayload` from build.ts. -/
def toRowPayload (language : String) (entry : DictionaryEntry) : RowPayload :=
  { normalized := normaliseForLanguage language entry.word
    term := entry.word
    reading :=
      match entry.reading with
      | some r => if r = "" then none else some (jsTrim r)
      | none => none
    pronunciation := entry.pronunciation
    forms := if entry.forms.length ≠ 0 then some entry.forms else none
    pos := if entry.pos.length ≠ 0 then some entry.pos else none
    definitions := entry.definitions
    source := entry.source
    metadata := entry.metadata }

/-- The filter `writeSqlite` applies before insertion:
`Boolean(row.normalized || row.reading)`. -/
def rowKept (row : RowPayload) : Bool :=
  row.normalized ≠ "" ||
    (match row.reading with
     | some r => r ≠ ""
     | none => false)

/-- The rows `writeSqlite` inserts for a language's entry list. -/
def sqlitePayloads (language : String) (entries : List DictionaryEntry) : List RowPayload :=
  (entries.map (toRowPayload language)).filter rowKept

/-- `DEFAULT_LANGUAGES` from build.ts. -/
def DEFAULT_LANGUAGES : List String := ["en-zh", "ja-zh", "en", "ja", "zh"]

/-- `STOP_WORDS` from build.ts. -/
def STOP_WORDS : List String :=
  ["to", "the", "a", "an", "of", "for", "on", "in", "at", "with",
   "and", "or", "by", "be", "is", "are"]

/-- `SAMPLE_DICTIONARIES` from build.ts, as a lookup on the language
identifier (a language without a fixture list yields `[]`). -/
def SAMPLE_DICTIONARIES (lang : String) : List DictionaryEntry :=
  if lang = "en-zh" then
    [{ word := "hello", definitions := ["你好", "您好"],
       forms := ["hello", "hellos"], pos := ["interjection"],
       source := some "Sample (Kaikki Wiktionary)",
       metadata := some [("frequency", .nat 5)] },
     { word := "music", definitions := ["音乐", "音乐作品"],
       forms := ["music"], pos := ["noun"],
       source := some "Sample (Kaikki Wiktionary)" }]
  else if lang = "ja-zh" then
    [{ word := "勉強", reading := some "べんきょう",
       definitions := ["学习", "用功"], pos := ["名詞"],
       source := some "Sample (JMdict 中文义)",
       metadata := some [("jlpt", .str "N5")] },
     { word := "ありがとう", reading := some "ありがとう",
       definitions := ["谢谢", "非常感谢"], pos := ["感動詞"],
       source := some "Sample (JMdict 中文义)" }]
  else if lang = "en" then
    [{ word := "study",
       definitions := ["To devote time and attention to acquiring knowledge.",
                       "To examine closely in order to observe or read."],
       forms := ["studies", "studied", "studying"], pos := ["verb", "noun"],
       source := some "Sample (Kaikki Wiktionary)" }]
  else if lang = "ja" then
    [{ word := "学ぶ", reading := some "まなぶ",
       definitions := ["to learn", "to study"], pos := ["動詞"],
       source := some "Sample (JMdict)" }]
  else if lang = "zh" then
    [{ word := "学习", reading := some "学习", pronunciation := some "xuéxí",
       definitions := ["study; learn"], forms := ["學習"], pos := ["动词"],
       source := some "Sample (CC-CEDICT stub)",
       metadata := some [("simplified", .str "学习"), ("traditional", .str "學習")] }]
  else []

/-! ### Flat-text (CC-CEDICT) parser -/

/-- Characters the JS regex `.` matches (anything but a line
terminator). -/
def isDotChar (c : Char) : Bool :=
  c ≠ '\n' && c ≠ '\r' && c ≠ ' ' && c ≠ ' '

/-- JS `content.split(/\r?\n/)`: split at every `\n`, absorbing a
directly preceding `\r`; a lone `\r` stays inside its line. -/
def splitLinesAux (acc : List Char) : List Char → List String
  | [] => [String.mk acc.reverse]
  | '\r' :: '\n' :: rest => String.mk acc.reverse :: splitLinesAux [] rest
  | '\n' :: rest => String.mk acc.reverse :: splitLinesAux [] rest
  | c :: rest => splitLinesAux (c :: acc) rest

/-- JS `content.split(/\r?\n/)`. -/
def splitLines (s : String) : List String := splitLinesAux [] s.toList

/-- The suffix matcher for `\s+\/(.+)\/$`: at least one whitespace
character, a literal slash, then a non-empty greedy definitions body
ending in the final slash of the line. -/
def matchDefsTail (cs : List Char) : Option (List Char) :=
  let sp := cs.takeWhile isJsSpace
  let rest := cs.dropWhile isJsSpace
  if sp.isEmpty then none
  else
    match rest with
    | '/' :: rest2 =>
      match rest2.reverse with
      | '/' :: c :: revBody =>
        let body := (c :: revBody).reverse
        if body.all isDotChar then some body else none
      | _ => none
    | _ => none

/-- The matcher for `(.+?)\]` followed by `\s+\/(.+)\/$`: the lazy
group tries each `]` from the left until the suffix matches, exactly as
the backtracking regex engine does; group characters must be matchable
by `.`. -/
def matchPinyinDefs (acc : List Char) : List Char → Option (List Char × List Char)
  | [] => none
  | c :: rest =>
    if ¬ isDotChar c then none
    else if c = ']' && ¬ acc.isEmpty then
      match matchDefsTail rest with
      | some body => some (acc.reverse, body)
      | none => matchPinyinDefs (c :: acc) rest
    else matchPinyinDefs (c :: acc) rest

/-- The line regex of `parseCedict`:
`^(\S+)\s+(\S+)\s+\[(.+?)\]\s+\/(.+)\/$`.  Because `\S` and `\s` are
disjoint classes, the leading groups match maximal runs without
backtracking. Returns (traditional, simplified, pinyin, raw
definitions). -/
def matchCedictLine (cs : List Char) : Option (String × String × String × String) :=
  let w1 := cs.takeWhile (fun c => ¬ isJsSpace c)
  let r1 := cs.dropWhile (fun c => ¬ isJsSpace c)
  if w1.isEmpty then none
  else
    let s1 := r1.takeWhile isJsSpace
    let r2 := r1.dropWhile isJsSpace
    if s1.isEmpty then none
    else
      let w2 := r2.takeWhile (fun c => ¬ isJsSpace c)
      let r3 := r2.dropWhile (fun c => ¬ isJsSpace c)
      if w2.isEmpty then none
      else
        let s2 := r3.takeWhile isJsSpace
        let r4 := r3.dropWhile isJsSpace
        if s2.isEmpty then none
        else
          match r4 with
          | '[' :: rest =>
            match matchPinyinDefs [] rest with
            | some (pinyin, body) =>
              some (String.mk w1, String.mk w2, String.mk pinyin, String.mk body)
            | none => none
          | _ => none

/-- Drop everything up to and including the first `)`. -/
def dropThroughClose : List Char → List Char
  | [] => []
  | ')' :: rest => rest
  | _ :: rest => dropThroughClose rest

/-- JS `replace(/\([^)]*\)/g, ' ')`: each parenthetical without an
inner `)` becomes one space; a `(` with no later `)` can start no match
(and then no later parenthetical can match either, since no `)` exists
at all).  The fuel argument (initially the list length, which strictly
bounds every recursive call's list length) keeps the recursion
structural. -/
def stripParensFuel : Nat → List Char → List Char
  | 0, l => l
  | fuel + 1, l =>
    match l with
    | [] => []
    | '(' :: rest =>
      if ')' ∈ rest then ' ' :: stripParensFuel fuel (dropThroughClose rest)
      else '(' :: rest
    | c :: rest => c :: stripParensFuel fuel rest

/-- JS `replace(/\([^)]*\)/g, ' ')`. -/
def stripParens (l : List Char) : List Char := stripParensFuel l.length l

/-- JS `clause.replace(/^to\s+/, '')`. -/
def stripLeadingTo (s : String) : String :=
  match s.toList with
  | 't' :: 'o' :: rest =>
    if (rest.takeWhile isJsSpace).isEmpty then s
    else String.mk (rest.dropWhile isJsSpace)
  | _ => s

/-- Result of `parseCedict`. -/
structure CedictData where
  source : String
  entries : List DictionaryEntry
  translationMap : TranslationMap
deriving DecidableEq

/-- Translation-map contribution of one CC-CEDICT definition string:
strip parentheticals, collapse whitespace, trim, split into clauses on
`[,;]+`, strip a leading infinitive marker, and union the line's forms
under every normalized key. -/
def cedictDefinitionKeys (definition : String) : List String :=
  let withoutParens :=
    jsTrim (String.mk (collapseSpaces (stripParens definition.toList)))
  let clauses :=
    ((splitOnPred (fun c => c = ',' || c = ';') withoutParens).map jsTrim).filter
      (fun s => s ≠ "")
  clauses.flatMap (fun clause => normalizeEnglishKey (stripLeadingTo clause))

/-- One line of `parseCedict`'s `forEach` body. -/
def cedictLineStep (st : List DictionaryEntry × TranslationMap) (line : String) :
    List DictionaryEntry × TranslationMap :=
  let trimmed := jsTrim line
  if trimmed = "" then st
  else if trimmed.toList.head? = some '#' then st
  else
    match matchCedictLine trimmed.toList with
    | none => st
    | some (traditional, simplified, pinyin, defsRaw) =>
      let definitions :=
        ((splitOnPred (fun c => c = '/') defsRaw).map jsTrim).filter (fun s => s ≠ "")
      if definitions = [] then st
      else
        let forms := if simplified = traditional then [simplified] else [simplified, traditional]
        let entry : DictionaryEntry :=
          { word := simplified, reading := some simplified,
            pronunciation := some pinyin, definitions := definitions,
            forms := forms, source := some "CC-CEDICT (MDBG export)",
            metadata := some [("traditional", .str traditional),
                              ("simplified", .str simplified),
                              ("pinyin", .str pinyin)] }
        let chineseForms := jsDedup forms
        let tmap2 := definitions.foldl (fun m definition =>
          if definition = "" then m
          else (cedictDefinitionKeys definition).foldl
            (fun m' key => addToMap m' key chineseForms) m) st.2
        (st.1 ++ [entry], tmap2)

/-- `parseCedict` from build.ts. -/
def parseCedict (content : String) : CedictData :=
  let st := (splitLines content).foldl cedictLineStep ([], [])
  { source := "CC-CEDICT (MDBG export)", entries := st.1, translationMap := st.2 }

/-! ### Sense-dump (Kaikki) parser

The JSON parsing performed by `JSON.parse` on each line is modelled by
taking the stream as a list of already-decoded records; a line that
fails to parse is `none` (logged and skipped by the code).  Fields the
code accesses with `typeof`-guards are modelled with the code's own
defaulting: string fields read through `typeof x === 'string' ? x : ''`
become plain `String` fields defaulting to `""`, and fields whose
absence changes the control flow are `Option String`. -/

/-- One element of a Kaikki record's `translations` array. -/
structure KaikkiTranslation where
  lang_code : String := ""
  lang : String := ""
  word : String := ""
  sense : String := ""
  roman : String := ""
deriving DecidableEq

/-- A decoded Kaikki line: `lang`, `word`, the `form` strings of its
`forms` array, `pos`, the `ipa` strings of its `sounds` array, the
string glosses of each sense (`glosses ?? raw_glosses`), and its
`translations`. -/
structure KaikkiRecord where
  lang : String := ""
  word : Option String := none
  forms : List (Option String) := []
  pos : Option String := none
  sounds : List (Option String) := []
  senses : List (List String) := []
  translations : List KaikkiTranslation := []
deriving DecidableEq

/-- The principal codepoint ranges of Unicode `Script=Han`, as matched
by the JS regex `/[\p{Script=Han}]/u`. -/
def isHanChar (c : Char) : Bool :=
  (0x4E00 ≤ c.toNat && c.toNat ≤ 0x9FFF) ||
  (0x3400 ≤ c.toNat && c.toNat ≤ 0x4DBF) ||
  (0xF900 ≤ c.toNat && c.toNat ≤ 0xFAD9) ||
  (0x20000 ≤ c.toNat && c.toNat ≤ 0x2FA1F) ||
  (0x2E80 ≤ c.toNat && c.toNat ≤ 0x2EF3) ||
  (0x2F00 ≤ c.toNat && c.toNat ≤ 0x2FD5) ||
  c.toNat = 0x3005 || c.toNat = 0x3007 ||
  (0x3021 ≤ c.toNat && c.toNat ≤ 0x3029) ||
  (0x3038 ≤ c.toNat && c.toNat ≤ 0x303B)

/-- `containsHan` from build.ts. -/
def containsHan (value : String) : Bool :=
  value ≠ "" && value.toList.any isHanChar

/-- `collectGlosses` from build.ts: all trimmed non-empty string
glosses across the senses, in order. -/
def collectGlosses (senses : List (List String)) : List String :=
  (senses.flatMap id).map jsTrim |>.filter (fun s => s ≠ "")

/-- `collectPronunciations` from build.ts: deduplicated trimmed `ipa`
strings joined with a comma separator. -/
def collectPronunciations (sounds : List (Option String)) : Option String :=
  let ps := jsDedup (((sounds.filterMap id).map jsTrim).filter (fun s => s ≠ ""))
  if ps = [] then none else some (String.intercalate ", " ps)

/-- The separator class of `splitChineseVariants`'s regex
`/\s*[\/／、；;]\s*/`. -/
def isVariantSep (c : Char) : Bool :=
  c = '/' || c = '／' || c = '、' || c = '；' || c = ';'

/-- `splitChineseVariants` from build.ts (the regex's surrounding `\s*`
is absorbed by the per-item trim that follows it). -/
def splitChineseVariants (value : String) : List String :=
  if value = "" then []
  else ((splitOnPred isVariantSep value).map jsTrim).filter (fun s => s ≠ "")

/-- Whether `needle` occurs as a prefix of `hay`. -/
def prefixOfList : List Char → List Char → Bool
  | [], _ => true
  | _ :: _, [] => false
  | a :: as, b :: bs => a = b && prefixOfList as bs

/-- Whether `needle` occurs contiguously inside `hay`. -/
def containsSeq (needle : List Char) : List Char → Bool
  | [] => needle.isEmpty
  | c :: rest => prefixOfList needle (c :: rest) || containsSeq needle rest

/-- `/Mandarin/i.test(lang)`: case-insensitive substring test. -/
def mentionsMandarin (lang : String) : Bool :=
  containsSeq "mandarin".toList (jsLower lang).toList

/-- Per-translation accumulation of Chinese definitions, Chinese word
variants and romanisations (pre-deduplication lists, in insertion
order). -/
def kaikkiTranslationStep (acc : List String × List String × List String)
    (t : KaikkiTranslation) : List String × List String × List String :=
  if t.word = "" || ¬ containsHan t.word then acc
  else if ¬ (t.lang_code = "cmn" || mentionsMandarin t.lang) then acc
  else
    let variants := splitChineseVariants t.word
    let sense := jsTrim t.sense
    let roman := jsTrim t.roman
    let defsWords := variants.foldl (fun (dw : List String × List String) variant =>
      if variant = "" then dw
      else (dw.1 ++ [if sense ≠ "" then variant ++ " — " ++ sense else variant],
            dw.2 ++ [variant])) (acc.1, acc.2.1)
    (defsWords.1, defsWords.2, if roman ≠ "" then acc.2.2 ++ [roman] else acc.2.2)

/-- Accumulator of `parseKaikki`'s streaming loop. -/
structure KaikkiAcc where
  enZhEntries : List DictionaryEntry := []
  enEntries : List DictionaryEntry := []
  translationMap : TranslationMap := []
deriving DecidableEq

/-- The provenance label of the Kaikki source. -/
def kaikkiSource : String := "Kaikki (Wiktionary, English edition)"

/-- The body of `parseKaikki`'s per-line loop. -/
def kaikkiStep (st : KaikkiAcc) (record : Option KaikkiRecord) : KaikkiAcc :=
  match record with
  | none => st
  | some entry =>
    if entry.lang ≠ "English" then st
    else
      match entry.word with
      | none => st
      | some w =>
        let baseWord := jsTrim w
        if baseWord = "" then st
        else
          let formsSet := jsDedup (baseWord ::
            (((entry.forms.filterMap id).map jsTrim).filter (fun s => s ≠ "")))
          let posList :=
            match entry.pos with
            | some p => if jsTrim p ≠ "" then [jsTrim p] else []
            | none => []
          let pronunciation := collectPronunciations entry.sounds
          let englishGlosses := collectGlosses entry.senses
          let st1 :=
            if englishGlosses ≠ [] then
              { st with enEntries := st.enEntries ++
                  [{ word := baseWord, definitions := englishGlosses,
                     forms := formsSet, pos := posList,
                     pronunciation := pronunciation,
                     source := some (kaikkiSource ++ " (English gloss)") }] }
            else st
          let tr := entry.translations.foldl kaikkiTranslationStep ([], [], [])
          let chineseDefinitions := jsDedup tr.1
          let chineseWords := jsDedup tr.2.1
          let romanisations := jsDedup tr.2.2
          if chineseDefinitions = [] then st1
          else
            let dictEntry : DictionaryEntry :=
              { word := baseWord, definitions := chineseDefinitions,
                forms := formsSet, pos := posList,
                pronunciation := pronunciation, source := some kaikkiSource,
                metadata :=
                  if romanisations ≠ [] then some [("romanisations", .list romanisations)]
                  else none }
            let st2 := { st1 with enZhEntries := st1.enZhEntries ++ [dictEntry] }
            if chineseWords ≠ [] then
              let mapKeys := jsDedup (formsSet.flatMap
                (fun form => (normalizeEnglishKey form).filter (fun k => k ≠ "")))
              { st2 with translationMap :=
                  (mapKeys.foldl
                    (fun m key =>
                      mapSet m key (jsDedup ((mapGet m key).getD [] ++ chineseWords)))
                    st2.translationMap) }
            else st2

/-- Result of `parseKaikki`. -/
structure KaikkiData where
  source : String
  enZhEntries : List DictionaryEntry
  enEntries : List DictionaryEntry
  translationMap : TranslationMap
deriving DecidableEq

/-- `parseKaikki` from build.ts, over the stream of decoded lines. -/
def parseKaikki (records : List (Option KaikkiRecord)) : KaikkiData :=
  let st := records.foldl kaikkiStep {}
  { source := kaikkiSource, enZhEntries := st.enZhEntries,
    enEntries := st.enEntries, translationMap := st.translationMap }

/-! ### Gloss translator -/

/-- `translateGlossToChinese` from build.ts: direct lookups of the
normalized gloss keys; if none hit, tokenize on spaces, discard short
and stop-word tokens, and union per-token lookups (each token tried
as-is, then punctuation-stripped). -/
def translateGlossToChinese (gloss : String) (translationMap : TranslationMap) :
    List String :=
  let variants := normalizeEnglishKey gloss
  let results := jsDedup (variants.foldl (fun acc variant =>
    match mapGet translationMap variant with
    | some found => acc ++ found
    | none => acc) [])
  if results ≠ [] then results
  else
    let tokens :=
      ((variants.flatMap (fun variant => splitOnPred (fun c => c = ' ') variant)).map
        jsTrim).filter (fun token => token.length > 1 && ¬ STOP_WORDS.contains token)
    jsDedup (tokens.foldl (fun acc token =>
      let found :=
        match mapGet translationMap token with
        | some ms => ms
        | none => (mapGet translationMap (String.mk (token.toList.filter isKeyChar))).getD []
      acc ++ found) [])

/-! ### Bilingual-XML (JMdict) parser

The XML deserialization performed by `fast-xml-parser` (with forced
array representation for the repeatable element names) is modelled by
taking the document as a list of already-decoded entry elements. -/

/-- A `gloss` value: either a plain string or an element object whose
extracted text (`#text`/`text`, when a string was found) and `lang`
attribute are recorded. -/
inductive JmGloss where
  | str : String → JmGloss
  | obj : Option String → Option String → JmGloss
deriving DecidableEq

/-- A `sense` element: part-of-speech codes and glosses. -/
structure JmSense where
  pos : List String := []
  gloss : List JmGloss := []
deriving DecidableEq

/-- A JMdict `entry` element: the `keb` strings of each kanji element
and the `reb` strings of each reading element, plus the senses. -/
structure JmEntry where
  k_ele : List (List String) := []
  r_ele : List (List String) := []
  sense : List JmSense := []
deriving DecidableEq

/-- `JM_POS_MAP` from build.ts. -/
def JM_POS_MAP (s : String) : Option String :=
  if s = "n" then some "noun"
  else if s = "adj-i" then some "i-adjective"
  else if s = "adj-na" then some "na-adjective"
  else if s = "adj-no" then some "no-adjective"
  else if s = "adv" then some "adverb"
  else if s = "vs" then some "suru-verb"
  else if s = "vt" then some "transitive verb"
  else if s = "vi" then some "intransitive verb"
  else if s = "exp" then some "expression"
  else none

/-- `decodeJmPos` from build.ts: strip a leading `&` and trailing `;`,
then decode through the table (unmapped codes pass through). -/
def decodeJmPos (posValue : String) : String :=
  let l := posValue.toList
  let l1 := match l with | '&' :: rest => rest | _ => l
  let l2 := match l1.reverse with | ';' :: rev => rev.reverse | _ => l1
  let trimmed := String.mk l2
  (JM_POS_MAP trimmed).getD trimmed

/-- JS `String(v)` for a possibly-undefined string (the code indexes
`ensureArray(r.reb ?? [])[0]`, so an element with no readings yields
the string `"undefined"`). -/
def jsString : Option String → String
  | none => "undefined"
  | some s => s

/-- Gloss bucketing of one `gloss` value: append its text to the
English bucket (untagged, empty-tagged or `eng`) or the Chinese bucket
(`zh`/`zho`/`cmn`); other tags are dropped. -/
def jmGlossStep (buckets : List String × List String) (g : JmGloss) :
    List String × List String :=
  match g with
  | .str v =>
    let text := jsTrim v
    if text ≠ "" then (buckets.1 ++ [text], buckets.2) else buckets
  | .obj lang t =>
    let text := jsTrim (t.getD "")
    if text = "" then buckets
    else
      match lang with
      | none => (buckets.1 ++ [text], buckets.2)
      | some l =>
        if l = "" || l = "eng" then (buckets.1 ++ [text], buckets.2)
        else if l = "zh" || l = "zho" || l = "cmn" then (buckets.1, buckets.2 ++ [text])
        else buckets

/-- The body of `parseJmdict`'s per-entry loop. -/
def jmdictEntryStep (translationMap : TranslationMap)
    (st : List DictionaryEntry × List DictionaryEntry) (entry : JmEntry) :
    List DictionaryEntry × List DictionaryEntry :=
  let primaryWord := jsTrim
    (((entry.k_ele.head?.bind List.head?).orElse
        (fun _ => entry.r_ele.head?.bind List.head?)).getD "")
  if primaryWord = "" then st
  else
    let forms := jsDedup
      ((entry.k_ele.flatMap id).map jsTrim ++ (entry.r_ele.flatMap id).map jsTrim)
    let readings :=
      (entry.r_ele.map (fun rebs => jsTrim (jsString rebs.head?))).filter
        (fun s => s ≠ "")
    let posList := jsDedup (entry.sense.flatMap
      (fun s => (s.pos.map (fun p => decodeJmPos (jsTrim p))).filter (fun d => d ≠ "")))
    let buckets := entry.sense.foldl
      (fun b s => s.gloss.foldl jmGlossStep b) ([], [])
    let englishGlosses := buckets.1
    let chineseGlosses := buckets.2
    let reading := readings.head?
    let st1 :=
      if englishGlosses ≠ [] then
        (st.1 ++ [{ word := primaryWord, reading := reading, forms := forms,
                    pos := posList, definitions := englishGlosses,
                    source := some "JMdict (English glosses)",
                    metadata := some [("englishGlosses", .list englishGlosses)] }],
         st.2)
      else st
    let aggregated0 := jsDedup chineseGlosses
    let aggregated :=
      if aggregated0 ≠ [] then aggregated0
      else jsDedup (englishGlosses.flatMap
        (fun gloss => translateGlossToChinese gloss translationMap))
    if aggregated = [] then st1
    else
      (st1.1,
       st1.2 ++ [{ word := primaryWord, reading := reading, forms := forms,
                   pos := posList, definitions := aggregated,
                   source := some "JMdict + Kaikki (Chinese gloss)",
                   metadata := some [("englishGlosses", .list (englishGlosses.take 5))] }])

/-- Result of `parseJmdict`. -/
structure JmdictData where
  source : String
  jaZhEntries : List DictionaryEntry
  jaEntries : List DictionaryEntry
deriving DecidableEq

/-- `parseJmdict` from build.ts, over the decoded entry elements. -/
def parseJmdict (entries : List JmEntry) (translationMap : TranslationMap) : JmdictData :=
  let st := entries.foldl (jmdictEntryStep translationMap) ([], [])
  { source := "JMdict (Monash Nihongo archive)", jaEntries := st.1, jaZhEntries := st.2 }

/-! ### Persistence writer and build orchestrator

The output directory is modelled as an association list from file name
to file content; `join(OUTPUT_DIR, name)` is modelled by the name
itself.  A thrown JS error is an `Except.error` carrying the message;
the code throws before touching the destination, so an error leaves the
file system unchanged by construction.  The SHA-256 content checksum is
modelled by the file content itself (the hash is injective on the
artifacts of one run for the purposes of the claims). -/

/-- Content of an artifact file. -/
inductive FileData where
  | sqliteDb : List RowPayload → FileData
  | gzipJson : List DictionaryEntry → FileData
deriving DecidableEq

/-- The modelled output directory. -/
abbrev FS := List (String × FileData)

/-- Look up a file. -/
def fsGet (fs : FS) (path : String) : Option FileData :=
  match fs with
  | [] => none
  | (p, d) :: rest => if p = path then some d else fsGet rest path

/-- Remove a file (`rm`). -/
def fsRemove (fs : FS) (path : String) : FS :=
  match fs with
  | [] => []
  | p :: rest => if p.1 = path then fsRemove rest path else p :: fsRemove rest path

/-- Create a file (the destination never exists when this runs). -/
def fsPut (fs : FS) (path : String) (d : FileData) : FS := fs ++ [(path, d)]

/-- `writeGzipJson` from build.ts: refuse to overwrite an existing
destination unless `force`, in which case the file is removed first;
then serialize and compress the payload to the destination. -/
def writeGzipJsonFS (fs : FS) (filePath : String) (payload : List DictionaryEntry)
    (force : Bool) : Except String FS :=
  if (fsGet fs filePath).isSome then
    if ¬ force then
      .error ("File already exists: " ++ filePath ++ ". Use --force to overwrite.")
    else .ok (fsPut (fsRemove fs filePath) filePath (.gzipJson payload))
  else .ok (fsPut fs filePath (.gzipJson payload))

/-- `writeSqlite` from build.ts: the same overwrite gating, then the
filtered row payloads are inserted in one transaction; returns the new
file system and the number of rows written. -/
def writeSqliteFS (fs : FS) (language : String) (entries : List DictionaryEntry)
    (filePath : String) (force : Bool) : Except String (FS × Nat) :=
  if (fsGet fs filePath).isSome then
    if ¬ force then
      .error ("File already exists: " ++ filePath ++ ". Use --force to overwrite.")
    else
      let payloads := sqlitePayloads language entries
      .ok (fsPut (fsRemove fs filePath) filePath (.sqliteDb payloads), payloads.length)
  else
    let payloads := sqlitePayloads language entries
    .ok (fsPut fs filePath (.sqliteDb payloads), payloads.length)

/-- `ManifestEntry` from build.ts (checksums modelled as the file
contents they hash). -/
structure ManifestEntry where
  language : String
  entries : Nat
  sqlite : String
  sqliteSha256 : Option FileData
  json : String
  jsonSha256 : Option FileData
  source : String
deriving DecidableEq

/-- `BuildMode` from build.ts. -/
inductive BuildMode where
  | sample
  | production
deriving DecidableEq

/-- `BuilderResult` from build.ts. -/
structure BuilderResult where
  entries : List DictionaryEntry
  source : String
deriving DecidableEq

/-- The per-run parse results the builder strategies consume.  The
lazy, memoized acquisition (`loadKaikki`/`loadCedict`/`loadJmdict`
populating `BuildContext` at most once per run) is modelled by parsing
each raw source once up front; the builders then read the shared
results, exactly as the memoized loaders return them. -/
structure ParsedSources where
  kaikki : KaikkiData
  jmdict : JmdictData
  cedict : CedictData
deriving DecidableEq

/-- The parse results of one run, from the three raw sources: the
combined Translation Map handed to `parseJmdict` is the Kaikki map with
the CC-CEDICT map merged in, as in `loadJmdict`. -/
def mkParsedSources (kaikkiRecords : List (Option KaikkiRecord))
    (cedictContent : String) (jmdictEntries : List JmEntry) : ParsedSources :=
  let kaikki := parseKaikki kaikkiRecords
  let cedict := parseCedict cedictContent
  let combinedMap := mergeMaps kaikki.translationMap cedict.translationMap
  let jmdict := parseJmdict jmdictEntries combinedMap
  { kaikki := kaikki, jmdict := jmdict, cedict := cedict }

/-- The `builders` dispatch table from build.ts, applied to a requested
language identifier: `none` means the dispatch object carries no own
builder strategy under the identifier.  (Each sample fixture exists, so
the `null`-returning branches of the strategies are unreachable.)  The
JS property access `builders[language]` additionally resolves members
inherited from `Object.prototype` for non-own keys; that resolution is
modelled in `buildStep` via `OBJECT_PROTOTYPE_KEYS`. -/
def runBuilder (mode : BuildMode) (src : ParsedSources) (language : String) :
    Option BuilderResult :=
  if language = "en-zh" then some
    (match mode with
     | .sample => { entries := SAMPLE_DICTIONARIES "en-zh", source := "sample" }
     | .production => { entries := src.kaikki.enZhEntries, source := src.kaikki.source })
  else if language = "en" then some
    (match mode with
     | .sample => { entries := SAMPLE_DICTIONARIES "en", source := "sample" }
     | .production =>
       { entries := src.kaikki.enEntries, source := src.kaikki.source ++ " (English gloss)" })
  else if language = "ja-zh" then some
    (match mode with
     | .sample => { entries := SAMPLE_DICTIONARIES "ja-zh", source := "sample" }
     | .production =>
       { entries := src.jmdict.jaZhEntries, source := src.jmdict.source ++ " + Kaikki" })
  else if language = "ja" then some
    (match mode with
     | .sample => { entries := SAMPLE_DICTIONARIES "ja", source := "sample" }
     | .production => { entries := src.jmdict.jaEntries, source := src.jmdict.source })
  else if language = "zh" then some
    (match mode with
     | .sample => { entries := SAMPLE_DICTIONARIES "zh", source := "sample" }
     | .production => { entries := src.cedict.entries, source := src.cedict.source })
  else none

/-- The observable state of one orchestrator run. -/
structure BuildState where
  fs : FS
  manifestEntries : List ManifestEntry
  warnings : List String
  errors : List String
deriving DecidableEq

/-- The property names of `Object.prototype` in the JS runtime.  The
dispatch table is a plain object literal, so `builders[language]`
resolves these through the prototype chain when `language` is not one
of the five own keys: the looked-up member (a function, or
`Object.prototype` itself for `__proto__`) is truthy and passes the
`!builder` guard. -/
def OBJECT_PROTOTYPE_KEYS : List String :=
  ["constructor", "hasOwnProperty", "isPrototypeOf", "propertyIsEnumerable",
   "toLocaleString", "toString", "valueOf", "__proto__",
   "__defineGetter__", "__defineSetter__", "__lookupGetter__", "__lookupSetter__"]

/-- The `TypeError` each inherited `Object.prototype` member produces
inside the per-language try block when treated as a builder strategy:
`__proto__` is not callable, `toString` and `constructor` return values
without an `entries` array (so `result.entries.length` throws), and the
remaining methods throw on their undefined `this`.  The exact message
text is runtime-dependent; the model fixes one placeholder string per
key, and no claim depends on the text. -/
def inheritedMemberTypeError (language : String) : String :=
  "TypeError from inherited Object.prototype member " ++ language

/-- One iteration of `build`'s per-language loop: look up
`builders[language]` (an own strategy, a truthy member inherited from
`Object.prototype`, or `undefined`); warn and skip when the lookup is
falsy; with an inherited member, the invocation throws a `TypeError`
that the per-language catch logs as an error; with an own strategy,
invoke it (warn and skip on an empty result), write both artifacts, and
record a manifest entry; any error thrown during the language's build
is caught, logged, and the loop continues. -/
def buildStep (mode : BuildMode) (force : Bool) (src : ParsedSources)
    (st : BuildState) (language : String) : BuildState :=
  match runBuilder mode src language with
  | none =>
    if language ∈ OBJECT_PROTOTYPE_KEYS then
      { st with errors := st.errors ++
          ["[dictionary:build] Failed to build " ++ language ++ ": " ++
            inheritedMemberTypeError language] }
    else
      { st with warnings := st.warnings ++
          ["[dictionary:build] Unsupported language \"" ++ language ++ "\", skipping."] }
  | some result =>
    if result.entries.length = 0 then
      { st with warnings := st.warnings ++
          ["[dictionary:build] No entries produced for " ++ language ++ ", skipping."] }
    else
      let sqlitePath := language ++ ".sqlite"
      let jsonPath := language ++ ".json.gz"
      match writeSqliteFS st.fs language result.entries sqlitePath force with
      | .error msg =>
        { st with errors := st.errors ++
            ["[dictionary:build] Failed to build " ++ language ++ ": " ++ msg] }
      | .ok (fs1, count) =>
        match writeGzipJsonFS fs1 jsonPath result.entries force with
        | .error msg =>
          { st with fs := fs1, errors := st.errors ++
              ["[dictionary:build] Failed to build " ++ language ++ ": " ++ msg] }
        | .ok fs2 =>
          { st with fs := fs2, manifestEntries := st.manifestEntries ++
              [{ language := language, entries := count,
                 sqlite := sqlitePath, sqliteSha256 := fsGet fs2 sqlitePath,
                 json := jsonPath, jsonSha256 := fsGet fs2 jsonPath,
                 source := result.source }] }

/-- The per-language loop of `build`, from an initial output
directory. -/
def buildRun (mode : BuildMode) (force : Bool) (src : ParsedSources)
    (languages : List String) (fs0 : FS) : BuildState :=
  languages.foldl (buildStep mode force src)
    { fs := fs0, manifestEntries := [], warnings := [], errors := [] }

/-- `BuildOptions` from build.ts. -/
structure BuildOptions where
  mode : BuildMode
  force : Bool
  rawRoot : Option String
  languages : List String
deriving DecidableEq

/-- JS `String.prototype.startsWith`. -/
def jsStartsWith (s pre : String) : Bool := prefixOfList pre.toList s.toList

/-- JS `String.prototype.substring(n)`. -/
def jsDropChars (s : String) (n : Nat) : String := String.mk (s.toList.drop n)

/-- One iteration of `parseArgs`'s `forEach`. -/
def parseArgsStep (options : BuildOptions) (arg : String) : BuildOptions :=
  if arg = "--sample" then { options with mode := .sample }
  else if arg = "--force" then { options with force := true }
  else if jsStartsWith arg "--raw=" then
    { options with rawRoot := some (jsDropChars arg "--raw=".length) }
  else if jsStartsWith arg "--languages=" then
    let raw := jsDropChars arg "--languages=".length
    let languages := ((splitOnPred (fun c => c = ',') raw).map jsTrim).filter
      (fun s => s ≠ "")
    if languages.length ≠ 0 then { options with languages := languages } else options
  else options

/-- `parseArgs` from build.ts. -/
def parseArgs (args : List String) : BuildOptions :=
  args.foldl parseArgsStep
    { mode := .production, force := false, rawRoot := none,
      languages := DEFAULT_LANGUAGES }

/-! ### General lemmas -/

theorem foldl_preserve_mem {σ α : Type} (step : σ → α → σ) (P : σ → Prop)
    (l : List α) (h : ∀ s a, a ∈ l → P s → P (step s a)) :
    ∀ s, P s → P (l.foldl step s) := by
  induction l with
  | nil => intro s hs; exact hs
  | cons a t ih =>
    intro s hs
    exact ih (fun s' b hb => h s' b (List.mem_cons_of_mem a hb))
      (step s a) (h s a (List.mem_cons_self a t) hs)

theorem foldl_rel {σ α : Type} (step : σ → α → σ) (R : σ → σ → Prop)
    (l : List α) (h : ∀ s1 s2 a, R s1 s2 → R (step s1 a) (step s2 a)) :
    ∀ s1 s2, R s1 s2 → R (l.foldl step s1) (l.foldl step s2) := by
  induction l with
  | nil => intro s1 s2 hs; exact hs
  | cons a t ih => intro s1 s2 hs; exact ih (step s1 a) (step s2 a) (h s1 s2 a hs)

theorem mem_jsDedupAux {α : Type} [DecidableEq α] (x : α) :
    ∀ (l seen : List α), x ∈ jsDedupAux seen l ↔ x ∈ l ∧ x ∉ seen := by
  intro l
  induction l with
  | nil => intro seen; simp [jsDedupAux]
  | cons a t ih =>
    intro seen
    by_cases ha : a ∈ seen
    · simp only [jsDedupAux, if_pos ha, ih, List.mem_cons]
      constructor
      · rintro ⟨hx, hns⟩; exact ⟨Or.inr hx, hns⟩
      · rintro ⟨hx | hx, hns⟩
        · subst hx; exact absurd ha hns
        · exact ⟨hx, hns⟩
    · simp only [jsDedupAux, if_neg ha, List.mem_cons, ih]
      by_cases hx : x = a
      · subst hx; simp [ha]
      · simp [hx]

theorem mem_jsDedup {α : Type} [DecidableEq α] (x : α) (l : List α) :
    x ∈ jsDedup l ↔ x ∈ l := by
  simp [jsDedup, mem_jsDedupAux]

theorem jsDedupAux_eq_self {α : Type} [DecidableEq α] :
    ∀ (l seen : List α), l.Nodup → (∀ x ∈ l, x ∉ seen) → jsDedupAux seen l = l := by
  intro l
  induction l with
  | nil => intro seen _ _; rfl
  | cons a t ih =>
    intro seen hnd hdis
    have ha : a ∉ seen := hdis a (List.mem_cons_self a t)
    simp only [jsDedupAux, if_neg ha]
    congr 1
    apply ih (a :: seen) (List.nodup_cons.mp hnd).2
    intro x hx
    simp only [List.mem_cons, not_or]
    exact ⟨fun he => (List.nodup_cons.mp hnd).1 (he ▸ hx),
      hdis x (List.mem_cons_of_mem a hx)⟩

theorem jsDedup_eq_self {α : Type} [DecidableEq α] (l : List α) (h : l.Nodup) :
    jsDedup l = l :=
  jsDedupAux_eq_self l [] h (by simp)

theorem jsDedupAux_of_all_mem {α : Type} [DecidableEq α] :
    ∀ (l seen : List α), (∀ x ∈ l, x ∈ seen) → jsDedupAux seen l = [] := by
  intro l
  induction l with
  | nil => intro seen _; rfl
  | cons a t ih =>
    intro seen h
    have ha : a ∈ seen := h a (List.mem_cons_self a t)
    simp only [jsDedupAux, if_pos ha]
    exact ih seen (fun x hx => h x (List.mem_cons_of_mem a hx))

theorem jsDedupAux_append {α : Type} [DecidableEq α] :
    ∀ (l1 l2 seen : List α), ∃ seen',
      jsDedupAux seen (l1 ++ l2) = jsDedupAux seen l1 ++ jsDedupAux seen' l2 ∧
      ∀ x, x ∈ seen' ↔ x ∈ seen ∨ x ∈ l1 := by
  intro l1
  induction l1 with
  | nil => intro l2 seen; exact ⟨seen, by simp [jsDedupAux]⟩
  | cons a t ih =>
    intro l2 seen
    by_cases ha : a ∈ seen
    · obtain ⟨seen', h1, h2⟩ := ih l2 seen
      refine ⟨seen', ?_, ?_⟩
      · simp only [List.cons_append, jsDedupAux, if_pos ha]
        exact h1
      · intro x
        rw [h2]
        constructor
        · rintro (hx | hx)
          · exact Or.inl hx
          · exact Or.inr (List.mem_cons_of_mem a hx)
        · rintro (hx | hx)
          · exact Or.inl hx
          · rcases List.mem_cons.mp hx with he | hx'
            · exact Or.inl (he ▸ ha)
            · exact Or.inr hx'
    · obtain ⟨seen', h1, h2⟩ := ih l2 (a :: seen)
      refine ⟨seen', ?_, ?_⟩
      · simp only [List.cons_append, jsDedupAux, if_neg ha]
        exact congrArg (List.cons a) h1
      · intro x
        rw [h2]
        simp only [List.mem_cons]
        tauto

theorem jsDedup_append_self {α : Type} [DecidableEq α] (l : List α) :
    jsDedup (l ++ l) = jsDedup l := by
  obtain ⟨seen', h1, h2⟩ := jsDedupAux_append l l []
  rw [jsDedup, h1, jsDedupAux_of_all_mem l seen'
    (fun x hx => (h2 x).mpr (Or.inr hx)), List.append_nil]
  rfl

/-! ### Translation-map lemmas -/

/-- The value list a key is associated with (`[]` when absent). -/
def lookupList (m : TranslationMap) (k : String) : List String :=
  (mapGet m k).getD []

theorem mapGet_mapSet_self (m : TranslationMap) (k : String) (v : List String) :
    mapGet (mapSet m k v) k = some v := by
  induction m with
  | nil => simp [mapSet, mapGet]
  | cons p rest ih =>
    by_cases h : p.1 = k
    · simp [mapSet, mapGet, h]
    · simp [mapSet, mapGet, h, ih]

theorem mapGet_mapSet_ne (m : TranslationMap) (k q : String) (v : List String)
    (h : q ≠ k) : mapGet (mapSet m k v) q = mapGet m q := by
  induction m with
  | nil =>
    simp only [mapSet, mapGet]
    rw [if_neg (fun he => h he.symm)]
  | cons p rest ih =>
    by_cases hp : p.1 = k
    · have hpq : ¬ p.1 = q := fun he => h (by rw [← he]; exact hp)
      simp only [mapSet, if_pos hp, mapGet, if_neg hpq]
    · by_cases hq : p.1 = q
      · simp only [mapSet, if_neg hp, mapGet, if_pos hq]
      · simp only [mapSet, if_neg hp, mapGet, if_neg hq, ih]

theorem mapSet_eq_self (m : TranslationMap) (k : String) (v : List String)
    (h : mapGet m k = some v) : mapSet m k v = m := by
  induction m with
  | nil => simp [mapGet] at h
  | cons p rest ih =>
    by_cases hp : p.1 = k
    · simp only [mapGet, if_pos hp] at h
      cases h
      simp only [mapSet, if_pos hp, Prod.mk.eta]
    · simp only [mapGet, if_neg hp] at h
      simp only [mapSet, if_neg hp, ih h]

theorem mapGet_mem (m : TranslationMap) (k : String) (v : List String)
    (h : mapGet m k = some v) : (k, v) ∈ m := by
  induction m with
  | nil => simp [mapGet] at h
  | cons p rest ih =>
    by_cases hp : p.1 = k
    · simp only [mapGet, if_pos hp] at h
      cases h
      rw [← hp, Prod.mk.eta]
      exact List.mem_cons_self p rest
    · simp only [mapGet, if_neg hp] at h
      exact List.mem_cons_of_mem p (ih h)

theorem mapGet_of_mem_nodup (m : TranslationMap) (k : String) (v : List String)
    (hnd : (m.map Prod.fst).Nodup) (h : (k, v) ∈ m) : mapGet m k = some v := by
  induction m with
  | nil => simp at h
  | cons p rest ih =>
    rcases List.mem_cons.mp h with he | hm
    · subst he; simp [mapGet]
    · have hp : p.1 ≠ k := by
        intro hk
        have : k ∈ rest.map Prod.fst := List.mem_map.mpr ⟨(k, v), hm, rfl⟩
        exact (List.nodup_cons.mp hnd).1 (hk ▸ this)
      simp only [mapGet, if_neg hp]
      exact ih (List.nodup_cons.mp hnd).2 hm

theorem mem_lookupList_iff (m : TranslationMap) (k : String) (x : String)
    (hnd : (m.map Prod.fst).Nodup) :
    x ∈ lookupList m k ↔ ∃ vs, (k, vs) ∈ m ∧ x ∈ vs := by
  constructor
  · intro hx
    cases hg : mapGet m k with
    | none => rw [lookupList, hg] at hx; simp at hx
    | some vs =>
      rw [lookupList, hg] at hx
      exact ⟨vs, mapGet_mem m k vs hg, hx⟩
  · rintro ⟨vs, hmem, hx⟩
    rw [lookupList, mapGet_of_mem_nodup m k vs hnd hmem]
    exact hx

theorem mem_lookupList_addToMap (m : TranslationMap) (key k : String)
    (vs : List String) (x : String) (hk : k ≠ "") :
    x ∈ lookupList (addToMap m key vs) k ↔
      x ∈ lookupList m k ∨ (key = k ∧ x ∈ vs) := by
  by_cases hkey : key = ""
  · subst hkey
    simp only [addToMap, if_pos rfl]
    constructor
    · exact fun h => Or.inl h
    · rintro (h | ⟨he, _⟩)
      · exact h
      · exact absurd he.symm hk
  · simp only [addToMap, if_neg hkey]
    by_cases he : key = k
    · subst he
      rw [lookupList, mapGet_mapSet_self]
      simp only [Option.getD_some, mem_jsDedup, List.mem_append]
      rw [lookupList]
      tauto
    · rw [lookupList, mapGet_mapSet_ne m key k _ (fun h => he h.symm), ← lookupList]
      tauto

theorem mem_lookupList_mergeFold (k x : String) (hk : k ≠ "") :
    ∀ (l : List (String × List String)) (acc : TranslationMap),
      x ∈ lookupList (l.foldl (fun a kv => addToMap a kv.1 kv.2) acc) k ↔
        x ∈ lookupList acc k ∨ ∃ vs, (k, vs) ∈ l ∧ x ∈ vs := by
  intro l
  induction l with
  | nil => intro acc; simp
  | cons p t ih =>
    intro acc
    rw [List.foldl_cons, ih, mem_lookupList_addToMap _ _ _ _ _ hk]
    constructor
    · rintro ((h | ⟨he, hx⟩) | ⟨vs, hvs, hx⟩)
      · exact Or.inl h
      · exact Or.inr ⟨p.2, by rw [← he]; exact ⟨List.mem_cons_self p t, hx⟩⟩
      · exact Or.inr ⟨vs, List.mem_cons_of_mem p hvs, hx⟩
    · rintro (h | ⟨vs, hvs, hx⟩)
      · exact Or.inl (Or.inl h)
      · rcases List.mem_cons.mp hvs with he | hm
        · exact Or.inl (Or.inr ⟨congrArg Prod.fst he.symm, by rw [← he]; exact hx⟩)
        · exact Or.inr ⟨vs, hm, hx⟩

theorem mem_lookupList_mergeMaps (a b : TranslationMap) (k x : String) (hk : k ≠ "") :
    x ∈ lookupList (mergeMaps a b) k ↔
      x ∈ lookupList a k ∨ ∃ vs, (k, vs) ∈ b ∧ x ∈ vs := by
  exact mem_lookupList_mergeFold k x hk b a

/-- A map as the pipeline builds them: pairwise-distinct keys and
duplicate-free value lists. -/
abbrev WellFormedMap (m : TranslationMap) : Prop :=
  (m.map Prod.fst).Nodup ∧ ∀ p ∈ m, (p.2 : List String).Nodup

theorem addToMap_self (m : TranslationMap) (k : String) (v : List String)
    (hget : mapGet m k = some v) (hnd : v.Nodup) : addToMap m k v = m := by
  by_cases hk : k = ""
  · simp [addToMap, hk]
  · simp only [addToMap, if_neg hk, hget, Option.getD_some]
    rw [jsDedup_append_self, jsDedup_eq_self v hnd]
    exact mapSet_eq_self m k v hget

theorem mergeMaps_self (m : TranslationMap) (hwf : WellFormedMap m) :
    mergeMaps m m = m := by
  rw [mergeMaps]
  have : ∀ l : List (String × List String), (∀ p ∈ l, p ∈ m) →
      l.foldl (fun a kv => addToMap a kv.1 kv.2) m = m := by
    intro l
    induction l with
    | nil => intro _; rfl
    | cons p t ih =>
      intro h
      have hp : p ∈ m := h p (List.mem_cons_self p t)
      rw [List.foldl_cons, addToMap_self m p.1 p.2
        (mapGet_of_mem_nodup m p.1 p.2 hwf.1 (by rw [Prod.mk.eta]; exact hp))
        (hwf.2 p hp)]
      exact ih (fun q hq => h q (List.mem_cons_of_mem p hq))
  exact this m (fun p hp => hp)

/-! ### Entry invariants established by the parsers -/

/-- The invariants every parser-produced entry carries: a non-empty
definitions list, a non-empty word, and a forms collection containing
the word. -/
def GoodEntry (e : DictionaryEntry) : Prop :=
  e.definitions ≠ [] ∧ e.word ≠ "" ∧ e.word ∈ e.forms

theorem stringMk_ne_empty (l : List Char) (h : l ≠ []) : String.mk l ≠ "" := by
  intro he
  exact h (congrArg String.data he)

theorem matchCedictLine_groups (cs : List Char) (t s p d : String)
    (h : matchCedictLine cs = some (t, s, p, d)) : t ≠ "" ∧ s ≠ "" := by
  unfold matchCedictLine at h
  simp only at h
  split at h
  · cases h
  · split at h
    · cases h
    · split at h
      · cases h
      · split at h
        · cases h
        · split at h
          · split at h
            · cases h
              constructor
              · exact stringMk_ne_empty _ (fun he => by simp_all)
              · exact stringMk_ne_empty _ (fun he => by simp_all)
            · cases h
          · cases h

theorem cedictLineStep_entries (st : List DictionaryEntry × TranslationMap)
    (line : String) :
    ∀ e ∈ (cedictLineStep st line).1, e ∈ st.1 ∨ GoodEntry e := by
  intro e he
  unfold cedictLineStep at he
  dsimp only at he
  split at he
  · exact Or.inl he
  · split at he
    · exact Or.inl he
    · split at he
      · exact Or.inl he
      · rename_i trad simp' pinyin defsRaw hmatch
        split at he
        · exact Or.inl he
        · rename_i hdefs
          simp only at he
          rcases List.mem_append.mp he with hold | hnew
          · exact Or.inl hold
          · right
            have hs := (matchCedictLine_groups _ _ _ _ _ hmatch).2
            rcases List.mem_singleton.mp hnew with rfl
            refine ⟨hdefs, hs, ?_⟩
            by_cases hst : simp' = trad
            · simp [hst]
            · simp [hst]

theorem parseCedict_entries_good (content : String) :
    ∀ e ∈ (parseCedict content).entries, GoodEntry e := by
  have : ∀ e ∈ ((splitLines content).foldl cedictLineStep ([], [])).1, GoodEntry e := by
    apply foldl_preserve_mem cedictLineStep
      (fun st => ∀ e ∈ st.1, GoodEntry e)
    · intro s a _ hP e he
      rcases cedictLineStep_entries s a e he with hold | hgood
      · exact hP e hold
      · exact hgood
    · intro e he
      simp at he
  exact this

theorem kaikkiStep_entries (st : KaikkiAcc) (r : Option KaikkiRecord) :
    (∀ e ∈ (kaikkiStep st r).enEntries, e ∈ st.enEntries ∨ GoodEntry e) ∧
    (∀ e ∈ (kaikkiStep st r).enZhEntries, e ∈ st.enZhEntries ∨ GoodEntry e) := by
  cases r with
  | none => exact ⟨fun e he => Or.inl he, fun e he => Or.inl he⟩
  | some entry =>
    unfold kaikkiStep
    by_cases hlang : entry.lang ≠ "English"
    · simp only [if_pos hlang]
      exact ⟨fun e he => Or.inl he, fun e he => Or.inl he⟩
    · simp only [if_neg hlang]
      cases hw : entry.word with
      | none => exact ⟨fun e he => Or.inl he, fun e he => Or.inl he⟩
      | some w =>
        by_cases hbw : jsTrim w = ""
        · simp only [if_pos hbw]
          exact ⟨fun e he => Or.inl he, fun e he => Or.inl he⟩
        · simp only [if_neg hbw]
          set baseWord := jsTrim w with hbwdef
          set formsSet := jsDedup (baseWord ::
            (((entry.forms.filterMap id).map jsTrim).filter (fun s => s ≠ ""))) with hfs
          have hbwmem : baseWord ∈ formsSet := by
            rw [hfs, mem_jsDedup]
            exact List.mem_cons_self _ _
          set englishGlosses := collectGlosses entry.senses with heg
          set tr := entry.translations.foldl kaikkiTranslationStep ([], [], []) with htr
          by_cases hegne : englishGlosses ≠ []
          · simp only [if_pos hegne]
            by_cases hcd : jsDedup tr.1 = []
            · simp only [if_pos hcd]
              constructor
              · intro e he
                rcases List.mem_append.mp he with hold | hnew
                · exact Or.inl hold
                · rcases List.mem_singleton.mp hnew with rfl
                  exact Or.inr ⟨hegne, hbw, hbwmem⟩
              · intro e he
                exact Or.inl he
            · simp only [if_neg hcd]
              by_cases hcw : jsDedup tr.2.1 = []
              · simp only [hcw]
                simp only [ne_eq, not_true_eq_false, if_false]
                constructor
                · intro e he
                  rcases List.mem_append.mp he with hold | hnew
                  · exact Or.inl hold
                  · rcases List.mem_singleton.mp hnew with rfl
                    exact Or.inr ⟨hegne, hbw, hbwmem⟩
                · intro e he
                  rcases List.mem_append.mp he with hold | hnew
                  · exact Or.inl hold
                  · rcases List.mem_singleton.mp hnew with rfl
                    exact Or.inr ⟨hcd, hbw, hbwmem⟩
              · simp only [ne_eq, hcw, not_false_eq_true, if_true]
                constructor
                · intro e he
                  rcases List.mem_append.mp he with hold | hnew
                  · exact Or.inl hold
                  · rcases List.mem_singleton.mp hnew with rfl
                    exact Or.inr ⟨hegne, hbw, hbwmem⟩
                · intro e he
                  rcases List.mem_append.mp he with hold | hnew
                  · exact Or.inl hold
                  · rcases List.mem_singleton.mp hnew with rfl
                    exact Or.inr ⟨hcd, hbw, hbwmem⟩
          · simp only [if_neg hegne]
            by_cases hcd : jsDedup tr.1 = []
            · simp only [if_pos hcd]
              exact ⟨fun e he => Or.inl he, fun e he => Or.inl he⟩
            · simp only [if_neg hcd]
              by_cases hcw : jsDedup tr.2.1 = []
              · simp only [hcw]
                simp only [ne_eq, not_true_eq_false, if_false]
                constructor
                · intro e he
                  exact Or.inl he
                · intro e he
                  rcases List.mem_append.mp he with hold | hnew
                  · exact Or.inl hold
                  · rcases List.mem_singleton.mp hnew with rfl
                    exact Or.inr ⟨hcd, hbw, hbwmem⟩
              · simp only [ne_eq, hcw, not_false_eq_true, if_true]
                constructor
                · intro e he
                  exact Or.inl he
                · intro e he
                  rcases List.mem_append.mp he with hold | hnew
                  · exact Or.inl hold
                  · rcases List.mem_singleton.mp hnew with rfl
                    exact Or.inr ⟨hcd, hbw, hbwmem⟩

theorem parseKaikki_entries_good (records : List (Option KaikkiRecord)) :
    (∀ e ∈ (parseKaikki records).enEntries, GoodEntry e) ∧
    (∀ e ∈ (parseKaikki records).enZhEntries, GoodEntry e) := by
  have : (∀ e ∈ (records.foldl kaikkiStep {}).enEntries, GoodEntry e) ∧
      (∀ e ∈ (records.foldl kaikkiStep {}).enZhEntries, GoodEntry e) := by
    apply foldl_preserve_mem kaikkiStep
      (fun st : KaikkiAcc => (∀ e ∈ st.enEntries, GoodEntry e) ∧
        (∀ e ∈ st.enZhEntries, GoodEntry e))
    · intro s a _ hP
      obtain ⟨h1, h2⟩ := kaikkiStep_entries s a
      constructor
      · intro e he
        rcases h1 e he with hold | hgood
        · exact hP.1 e hold
        · exact hgood
      · intro e he
        rcases h2 e he with hold | hgood
        · exact hP.2 e hold
        · exact hgood
    · constructor <;> (intro e he; simp at he)
  exact this

theorem jm_primaryWord_mem_forms (entry : JmEntry)
    (h : jsTrim (((entry.k_ele.head?.bind List.head?).orElse
        (fun _ => entry.r_ele.head?.bind List.head?)).getD "") ≠ "") :
    jsTrim (((entry.k_ele.head?.bind List.head?).orElse
        (fun _ => entry.r_ele.head?.bind List.head?)).getD "") ∈
      jsDedup ((entry.k_ele.flatMap id).map jsTrim ++
        (entry.r_ele.flatMap id).map jsTrim) := by
  rw [mem_jsDedup]
  cases hk : entry.k_ele.head?.bind List.head? with
  | some v =>
    obtain ⟨ks, hks, hv⟩ := Option.bind_eq_some.mp hk
    have hksmem : ks ∈ entry.k_ele := List.mem_of_mem_head? (by rw [hks]; rfl)
    have hvks : v ∈ ks := List.mem_of_mem_head? (by rw [hv]; rfl)
    exact List.mem_append_left _
      (List.mem_map_of_mem jsTrim (List.mem_flatMap.mpr ⟨ks, hksmem, hvks⟩))
  | none =>
    cases hr : entry.r_ele.head?.bind List.head? with
    | some v =>
      obtain ⟨rs, hrs, hv⟩ := Option.bind_eq_some.mp hr
      have hrsmem : rs ∈ entry.r_ele := List.mem_of_mem_head? (by rw [hrs]; rfl)
      have hvrs : v ∈ rs := List.mem_of_mem_head? (by rw [hv]; rfl)
      exact List.mem_append_right _
        (List.mem_map_of_mem jsTrim (List.mem_flatMap.mpr ⟨rs, hrsmem, hvrs⟩))
    | none =>
      simp only [hk, hr] at h
      exact absurd rfl h

theorem jmdictEntryStep_entries (tmap : TranslationMap)
    (st : List DictionaryEntry × List DictionaryEntry) (entry : JmEntry) :
    (∀ e ∈ (jmdictEntryStep tmap st entry).1, e ∈ st.1 ∨ GoodEntry e) ∧
    (∀ e ∈ (jmdictEntryStep tmap st entry).2, e ∈ st.2 ∨ GoodEntry e) := by
  unfold jmdictEntryStep
  dsimp only
  by_cases hpw : jsTrim (((entry.k_ele.head?.bind List.head?).orElse
      (fun _ => entry.r_ele.head?.bind List.head?)).getD "") = ""
  · rw [if_pos hpw]
    exact ⟨fun e he => Or.inl he, fun e he => Or.inl he⟩
  · rw [if_neg hpw]
    have hmem := jm_primaryWord_mem_forms entry hpw
    constructor
    · intro e he
      split_ifs at he
      all_goals try exact Or.inl he
      all_goals (
        rcases List.mem_append.mp he with hold | hnew
        · exact Or.inl hold
        · rcases List.mem_singleton.mp hnew with rfl
          exact Or.inr ⟨by assumption, hpw, hmem⟩)
    · intro e he
      split_ifs at he
      all_goals try exact Or.inl he
      all_goals (
        rcases List.mem_append.mp he with hold | hnew
        · exact Or.inl hold
        · rcases List.mem_singleton.mp hnew with rfl
          exact Or.inr ⟨by assumption, hpw, hmem⟩)

theorem parseJmdict_entries_good (entries : List JmEntry) (tmap : TranslationMap) :
    (∀ e ∈ (parseJmdict entries tmap).jaEntries, GoodEntry e) ∧
    (∀ e ∈ (parseJmdict entries tmap).jaZhEntries, GoodEntry e) := by
  have : (∀ e ∈ (entries.foldl (jmdictEntryStep tmap) ([], [])).1, GoodEntry e) ∧
      (∀ e ∈ (entries.foldl (jmdictEntryStep tmap) ([], [])).2, GoodEntry e) := by
    apply foldl_preserve_mem (jmdictEntryStep tmap)
      (fun st : List DictionaryEntry × List DictionaryEntry =>
        (∀ e ∈ st.1, GoodEntry e) ∧ (∀ e ∈ st.2, GoodEntry e))
    · intro s a _ hP
      obtain ⟨h1, h2⟩ := jmdictEntryStep_entries tmap s a
      constructor
      · intro e he
        rcases h1 e he with hold | hgood
        · exact hP.1 e hold
        · exact hgood
      · intro e he
        rcases h2 e he with hold | hgood
        · exact hP.2 e hold
        · exact hgood
    · constructor <;> (intro e he; simp at he)
  exact this

theorem sample_entries_c1 (lang : String) :
    ∀ e ∈ SAMPLE_DICTIONARIES lang, e.definitions ≠ [] ∧ e.word ≠ "" := by
  unfold SAMPLE_DICTIONARIES
  split_ifs <;> decide

theorem runBuilder_entries_c1 (mode : BuildMode)
    (kaikkiRecords : List (Option KaikkiRecord)) (cedictContent : String)
    (jmdictEntries : List JmEntry) (language : String) (result : BuilderResult)
    (hres : runBuilder mode (mkParsedSources kaikkiRecords cedictContent jmdictEntries)
      language = some result) :
    ∀ e ∈ result.entries, e.definitions ≠ [] ∧ e.word ≠ "" := by
  unfold runBuilder at hres
  split_ifs at hres <;> cases mode <;> cases hres <;> intro e he
  · exact sample_entries_c1 "en-zh" e he
  · exact ⟨((parseKaikki_entries_good kaikkiRecords).2 e he).1,
      ((parseKaikki_entries_good kaikkiRecords).2 e he).2.1⟩
  · exact sample_entries_c1 "en" e he
  · exact ⟨((parseKaikki_entries_good kaikkiRecords).1 e he).1,
      ((parseKaikki_entries_good kaikkiRecords).1 e he).2.1⟩
  · exact sample_entries_c1 "ja-zh" e he
  · exact ⟨((parseJmdict_entries_good jmdictEntries _).2 e he).1,
      ((parseJmdict_entries_good jmdictEntries _).2 e he).2.1⟩
  · exact sample_entries_c1 "ja" e he
  · exact ⟨((parseJmdict_entries_good jmdictEntries _).1 e he).1,
      ((parseJmdict_entries_good jmdictEntries _).1 e he).2.1⟩
  · exact sample_entries_c1 "zh" e he
  · exact ⟨(parseCedict_entries_good cedictContent e he).1,
      (parseCedict_entries_good cedictContent e he).2.1⟩

/-- Claim C1: for every DictionaryEntry that is persisted (inserted as
a row by the sqlite write step after any build — sample or production,
with the production parse results coming from the three raw sources),
its definitions list has length at least 1 and its word is a non-empty
string. -/
theorem claim1_persisted_rows (mode : BuildMode)
    (kaikkiRecords : List (Option KaikkiRecord)) (cedictContent : String)
    (jmdictEntries : List JmEntry) (language : String) (result : BuilderResult)
    (row : RowPayload)
    (hres : runBuilder mode (mkParsedSources kaikkiRecords cedictContent jmdictEntries)
      language = some result)
    (hrow : row ∈ sqlitePayloads language result.entries) :
    1 ≤ row.definitions.length ∧ row.term ≠ "" := by
  unfold sqlitePayloads at hrow
  obtain ⟨hmem, _⟩ := List.mem_filter.mp hrow
  obtain ⟨e, hemem, heq⟩ := List.mem_map.mp hmem
  obtain ⟨hdefs, hword⟩ :=
    runBuilder_entries_c1 mode kaikkiRecords cedictContent jmdictEntries
      language result hres e hemem
  subst heq
  exact ⟨List.length_pos.mpr hdefs, hword⟩

/-- Witness for C1: the sample `zh` build persists the 学习 row, whose
definitions and term are non-empty. -/
theorem claim1_persisted_rows_witness :
    runBuilder .sample (mkParsedSources [] "" []) "zh" =
      some { entries := SAMPLE_DICTIONARIES "zh", source := "sample" } ∧
    toRowPayload "zh"
        { word := "学习", reading := some "学习", pronunciation := some "xuéxí",
          definitions := ["study; learn"], forms := ["學習"], pos := ["动词"],
          source := some "Sample (CC-CEDICT stub)",
          metadata := some [("simplified", .str "学习"), ("traditional", .str "學習")] } ∈
      sqlitePayloads "zh" (SAMPLE_DICTIONARIES "zh") ∧
    (1 ≤ (toRowPayload "zh"
        { word := "学习", reading := some "学习", pronunciation := some "xuéxí",
          definitions := ["study; learn"], forms := ["學習"], pos := ["动词"],
          source := some "Sample (CC-CEDICT stub)",
          metadata := some [("simplified", .str "学习"), ("traditional", .str "學習")] }).definitions.length ∧
      (toRowPayload "zh"
        { word := "学习", reading := some "学习", pronunciation := some "xuéxí",
          definitions := ["study; learn"], forms := ["學習"], pos := ["动词"],
          source := some "Sample (CC-CEDICT stub)",
          metadata := some [("simplified", .str "学习"), ("traditional", .str "學習")] }).term ≠ "") :=
  ⟨by decide, by decide,
    claim1_persisted_rows .sample [] "" [] "zh"
      { entries := SAMPLE_DICTIONARIES "zh", source := "sample" }
      (toRowPayload "zh"
        { word := "学习", reading := some "学习", pronunciation := some "xuéxí",
          definitions := ["study; learn"], forms := ["學習"], pos := ["动词"],
          source := some "Sample (CC-CEDICT stub)",
          metadata := some [("simplified", .str "学习"), ("traditional", .str "學習")] })
      (by decide) (by decide)⟩

/-- Claim C2 counterexample: the sample-mode `en` fixture list violates
the claim — its single entry has word "study" but forms
["studies", "studied", "studying"], which does not contain the word. -/
theorem claim2_forms_counterexample :
    ¬ ∀ e ∈ SAMPLE_DICTIONARIES "en", e.word ∈ e.forms := by decide

/-- Claim C2 (amended): every DictionaryEntry produced by the three
parsers (sense-dump, flat-text, bilingual-XML) has its word among its
forms; the sample-mode fixtures do not satisfy this (see the
counterexample). -/
theorem claim2_parser_forms_contain_word
    (records : List (Option KaikkiRecord)) (content : String)
    (jmEntries : List JmEntry) (tmap : TranslationMap) (e : DictionaryEntry)
    (h : e ∈ (parseKaikki records).enEntries ∨
         e ∈ (parseKaikki records).enZhEntries ∨
         e ∈ (parseCedict content).entries ∨
         e ∈ (parseJmdict jmEntries tmap).jaEntries ∨
         e ∈ (parseJmdict jmEntries tmap).jaZhEntries) :
    e.word ∈ e.forms := by
  rcases h with h | h | h | h | h
  · exact ((parseKaikki_entries_good records).1 e h).2.2
  · exact ((parseKaikki_entries_good records).2 e h).2.2
  · exact (parseCedict_entries_good content e h).2.2
  · exact ((parseJmdict_entries_good jmEntries tmap).1 e h).2.2
  · exact ((parseJmdict_entries_good jmEntries tmap).2 e h).2.2

/-- The Scenario-B sense-dump record. -/
def helloRecord : KaikkiRecord :=
  { lang := "English", word := some "hello",
    translations := [{ lang_code := "cmn", word := "你好／您好" }] }

/-- Witness for the amended C2: the cross-lingual entry parsed from
`helloRecord` contains its word "hello" among its forms. -/
theorem claim2_parser_forms_witness :
    ({ word := "hello", definitions := ["你好", "您好"], forms := ["hello"],
       source := some kaikkiSource } : DictionaryEntry) ∈
        (parseKaikki [some helloRecord]).enZhEntries ∧
    ({ word := "hello", definitions := ["你好", "您好"], forms := ["hello"],
       source := some kaikkiSource } : DictionaryEntry).word ∈
      ({ word := "hello", definitions := ["你好", "您好"], forms := ["hello"],
         source := some kaikkiSource } : DictionaryEntry).forms :=
  ⟨by decide,
    claim2_parser_forms_contain_word [some helloRecord] "" [] [] _
      (Or.inr (Or.inl (by decide)))⟩

/-- Claim C3 counterexample: merging is not commutative under map
equality — merged value lists keep insertion order, so merging
single-key maps in the two orders yields ["x", "y"] versus
["y", "x"]. -/
theorem claim3_merge_counterexample :
    mergeMaps [("k", ["x"])] [("k", ["y"])] ≠
      mergeMaps [("k", ["y"])] [("k", ["x"])] := by decide

/-- Claim C3 (amended): merging a well-formed Translation Map (distinct
keys, duplicate-free value lists — as all maps built by the pipeline
are) into itself is the identity, and merging two maps with distinct
keys is commutative up to per-key value-set equality for every
non-empty key (the value lists may differ in order, as in the
counterexample). -/
theorem claim3_merge_idem_comm (m a b : TranslationMap)
    (hm : WellFormedMap m)
    (ha : (a.map Prod.fst).Nodup) (hb : (b.map Prod.fst).Nodup) :
    mergeMaps m m = m ∧
    ∀ k, k ≠ "" → ∀ x,
      (x ∈ lookupList (mergeMaps a b) k ↔ x ∈ lookupList (mergeMaps b a) k) := by
  refine ⟨mergeMaps_self m hm, ?_⟩
  intro k hk x
  rw [mem_lookupList_mergeMaps a b k x hk, mem_lookupList_mergeMaps b a k x hk,
    mem_lookupList_iff a k x ha, mem_lookupList_iff b k x hb]
  exact or_comm

/-- Witness for the amended C3 at concrete one-key maps. -/
theorem claim3_merge_idem_comm_witness :
    WellFormedMap [("k", ["x"])] ∧
    (List.map Prod.fst [("p", ["1"])]).Nodup ∧
    (List.map Prod.fst [("q", ["2"])]).Nodup ∧
    (mergeMaps [("k", ["x"])] [("k", ["x"])] = [("k", ["x"])] ∧
     ∀ k, k ≠ "" → ∀ x,
       (x ∈ lookupList (mergeMaps [("p", ["1"])] [("q", ["2"])]) k ↔
        x ∈ lookupList (mergeMaps [("q", ["2"])] [("p", ["1"])]) k)) :=
  ⟨by decide, by decide, by decide,
    claim3_merge_idem_comm [("k", ["x"])] [("p", ["1"])] [("q", ["2"])]
      (by decide) (by decide) (by decide)⟩

/-- Claim C4: parsing the single flat-text line
`學習 学习 [xue2 xi2] /to study/to learn/` yields exactly one entry with
word "学习", forms ["学习", "學習"], reading "学习", pronunciation
"xue2 xi2" and definitions ["to study", "to learn"], and a Translation
Map sending "study" and "learn" each to ["学习", "學習"]. -/
theorem claim4_cedict_scenario :
    (parseCedict "學習 学习 [xue2 xi2] /to study/to learn/").entries =
      [{ word := "学习", reading := some "学习", pronunciation := some "xue2 xi2",
         definitions := ["to study", "to learn"], forms := ["学习", "學習"],
         source := some "CC-CEDICT (MDBG export)",
         metadata := some [("traditional", .str "學習"), ("simplified", .str "学习"),
                           ("pinyin", .str "xue2 xi2")] }] ∧
    mapGet (parseCedict "學習 学习 [xue2 xi2] /to study/to learn/").translationMap
      "study" = some ["学习", "學習"] ∧
    mapGet (parseCedict "學習 学习 [xue2 xi2] /to study/to learn/").translationMap
      "learn" = some ["学习", "學習"] := by decide

/-- Claim C5: the sense-dump record for "hello" (English) with the
Mandarin translation "你好／您好" produces a cross-lingual entry whose
definitions are ["你好", "您好"] — the translated text split on the
full-width slash — and whose forms contain "hello". -/
theorem claim5_kaikki_scenario :
    (parseKaikki [some helloRecord]).enZhEntries =
      [{ word := "hello", definitions := ["你好", "您好"], forms := ["hello"],
         source := some kaikkiSource }] ∧
    "hello" ∈ ((parseKaikki [some helloRecord]).enZhEntries.flatMap
      DictionaryEntry.forms) := by decide

/-- Claim C6: with no direct full-phrase hit for the gloss "to study",
the Gloss Translator tokenizes, discards the stop word "to", and the
lookup of the surviving token "study" yields exactly ["学习"]. -/
theorem claim6_gloss_translator_scenario :
    translateGlossToChinese "to study" [("study", ["学习"])] = ["学习"] := by decide

/-! ### File-system and orchestrator lemmas -/

theorem fsGet_fsPut_self (fs : FS) (path : String) (d : FileData)
    (h : fsGet fs path = none) : fsGet (fsPut fs path d) path = some d := by
  induction fs with
  | nil => simp [fsPut, fsGet]
  | cons p rest ih =>
    by_cases hp : p.1 = path
    · simp only [fsGet, if_pos hp] at h
      cases h
    · simp only [fsGet, if_neg hp] at h
      simp only [fsPut, List.cons_append, fsGet, if_neg hp]
      simp only [fsPut] at ih
      exact ih h

theorem fsGet_fsPut_ne (fs : FS) (path q : String) (d : FileData)
    (h : q ≠ path) : fsGet (fsPut fs path d) q = fsGet fs q := by
  induction fs with
  | nil =>
    simp only [fsPut, List.nil_append, fsGet]
    rw [if_neg (fun he => h he.symm)]
  | cons p rest ih =>
    simp only [fsPut, List.cons_append, fsGet]
    simp only [fsPut] at ih
    by_cases hp : p.1 = q
    · rw [if_pos hp, if_pos hp]
    · rw [if_neg hp, if_neg hp]
      exact ih

theorem fsGet_fsRemove_self (fs : FS) (path : String) :
    fsGet (fsRemove fs path) path = none := by
  induction fs with
  | nil => rfl
  | cons p rest ih =>
    by_cases hp : p.1 = path
    · simp only [fsRemove, if_pos hp]
      exact ih
    · simp only [fsRemove, if_neg hp, fsGet]
      exact ih

theorem fsGet_fsRemove_ne (fs : FS) (path q : String) (h : q ≠ path) :
    fsGet (fsRemove fs path) q = fsGet fs q := by
  induction fs with
  | nil => rfl
  | cons p rest ih =>
    by_cases hp : p.1 = path
    · have hpq : ¬ p.1 = q := fun he => h (by rw [← he]; exact hp)
      simp only [fsRemove, if_pos hp, fsGet]
      rw [if_neg hpq]
      exact ih
    · simp only [fsRemove, if_neg hp, fsGet]
      by_cases hq : p.1 = q
      · rw [if_pos hq, if_pos hq]
      · rw [if_neg hq, if_neg hq]
        exact ih

theorem writeGzipJsonFS_ok (fs : FS) (filePath : String)
    (payload : List DictionaryEntry) (force : Bool) (fs' : FS)
    (h : writeGzipJsonFS fs filePath payload force = .ok fs') :
    fsGet fs' filePath = some (.gzipJson payload) ∧
    ∀ q, q ≠ filePath → fsGet fs' q = fsGet fs q := by
  unfold writeGzipJsonFS at h
  split_ifs at h with h1 h2
  · cases h
    refine ⟨fsGet_fsPut_self (fsRemove fs filePath) filePath _
      (fsGet_fsRemove_self fs filePath), ?_⟩
    intro q hq
    rw [fsGet_fsPut_ne _ _ _ _ hq, fsGet_fsRemove_ne _ _ _ hq]
  · cases h
    refine ⟨?_, ?_⟩
    · apply fsGet_fsPut_self
      cases hg : fsGet fs filePath with
      | none => rfl
      | some d => rw [hg] at h1; exact absurd rfl h1
    · intro q hq
      rw [fsGet_fsPut_ne _ _ _ _ hq]

theorem writeSqliteFS_ok (fs : FS) (language : String)
    (entries : List DictionaryEntry) (filePath : String) (force : Bool)
    (fs' : FS) (n : Nat)
    (h : writeSqliteFS fs language entries filePath force = .ok (fs', n)) :
    fsGet fs' filePath = some (.sqliteDb (sqlitePayloads language entries)) ∧
    n = (sqlitePayloads language entries).length ∧
    ∀ q, q ≠ filePath → fsGet fs' q = fsGet fs q := by
  unfold writeSqliteFS at h
  split_ifs at h with h1 h2
  · cases h
    refine ⟨fsGet_fsPut_self (fsRemove fs filePath) filePath _
      (fsGet_fsRemove_self fs filePath), rfl, ?_⟩
    intro q hq
    rw [fsGet_fsPut_ne _ _ _ _ hq, fsGet_fsRemove_ne _ _ _ hq]
  · cases h
    refine ⟨?_, rfl, ?_⟩
    · apply fsGet_fsPut_self
      cases hg : fsGet fs filePath with
      | none => rfl
      | some d => rw [hg] at h1; exact absurd rfl h1
    · intro q hq
      rw [fsGet_fsPut_ne _ _ _ _ hq]

theorem sqlite_json_path_ne (language : String) :
    language ++ ".sqlite" ≠ language ++ ".json.gz" := by
  intro he
  have hd : (language ++ ".sqlite").data = (language ++ ".json.gz").data := by
    rw [he]
  simp only [String.data_append] at hd
  have := List.append_cancel_left hd
  exact absurd (String.ext this) (by decide)

/-- Claim C7: when the destination already exists, both artifact writes
without force-overwrite fail with the overwrite-conflict error — the
error is thrown before any stream or database handle is opened, so the
existing file and all other state are unchanged (the returned
`Except.error` carries no new file system) — and with force-overwrite
the existing file is removed before the new artifact is written. -/
theorem claim7_overwrite_gating (fs : FS) (filePath : String)
    (payload : List DictionaryEntry) (language : String)
    (entries : List DictionaryEntry)
    (hex : (fsGet fs filePath).isSome = true) :
    (writeGzipJsonFS fs filePath payload false =
       .error ("File already exists: " ++ filePath ++ ". Use --force to overwrite.") ∧
     writeSqliteFS fs language entries filePath false =
       .error ("File already exists: " ++ filePath ++ ". Use --force to overwrite.")) ∧
    (writeGzipJsonFS fs filePath payload true =
       .ok (fsPut (fsRemove fs filePath) filePath (.gzipJson payload)) ∧
     writeSqliteFS fs language entries filePath true =
       .ok (fsPut (fsRemove fs filePath) filePath
              (.sqliteDb (sqlitePayloads language entries)),
            (sqlitePayloads language entries).length)) := by
  unfold writeGzipJsonFS writeSqliteFS
  simp [hex]

/-- Witness for C7 at a concrete one-file file system. -/
theorem claim7_overwrite_gating_witness :
    (fsGet [("p", FileData.gzipJson [])] "p").isSome = true ∧
    ((writeGzipJsonFS [("p", FileData.gzipJson [])] "p" [] false =
        .error ("File already exists: " ++ "p" ++ ". Use --force to overwrite.") ∧
      writeSqliteFS [("p", FileData.gzipJson [])] "zh" [] "p" false =
        .error ("File already exists: " ++ "p" ++ ". Use --force to overwrite.")) ∧
     (writeGzipJsonFS [("p", FileData.gzipJson [])] "p" [] true =
        .ok (fsPut (fsRemove [("p", FileData.gzipJson [])] "p") "p" (.gzipJson [])) ∧
      writeSqliteFS [("p", FileData.gzipJson [])] "zh" [] "p" true =
        .ok (fsPut (fsRemove [("p", FileData.gzipJson [])] "p") "p"
               (.sqliteDb (sqlitePayloads "zh" [])),
             (sqlitePayloads "zh" []).length))) :=
  ⟨by decide, claim7_overwrite_gating [("p", FileData.gzipJson [])] "p" [] "zh" []
    (by decide)⟩

/-- The per-language loop step reads only the file system, manifest and
error log of its state; the warning log is write-only, so two states
agreeing on the former agree on them after the step. -/
theorem buildStep_core (mode : BuildMode) (force : Bool) (src : ParsedSources)
    (language : String) (s1 s2 : BuildState)
    (hfs : s1.fs = s2.fs) (hme : s1.manifestEntries = s2.manifestEntries)
    (her : s1.errors = s2.errors) :
    (buildStep mode force src s1 language).fs =
      (buildStep mode force src s2 language).fs ∧
    (buildStep mode force src s1 language).manifestEntries =
      (buildStep mode force src s2 language).manifestEntries ∧
    (buildStep mode force src s1 language).errors =
      (buildStep mode force src s2 language).errors := by
  unfold buildStep
  cases hrb : runBuilder mode src language with
  | none =>
    by_cases hp : language ∈ OBJECT_PROTOTYPE_KEYS
    · simp only [if_pos hp]
      exact ⟨hfs, hme, by rw [her]⟩
    · simp only [if_neg hp]
      exact ⟨hfs, hme, her⟩
  | some result =>
    by_cases hlen : result.entries.length = 0
    · simp only [if_pos hlen]
      exact ⟨hfs, hme, her⟩
    · simp only [if_neg hlen]
      rw [hfs]
      cases hws : writeSqliteFS s2.fs language result.entries
          (language ++ ".sqlite") force with
      | error msg => exact ⟨rfl, hme, by rw [her]⟩
      | ok pr =>
        obtain ⟨fs1, count⟩ := pr
        dsimp only
        cases hwg : writeGzipJsonFS fs1 (language ++ ".json.gz")
            result.entries force with
        | error msg => exact ⟨rfl, hme, by rw [her]⟩
        | ok fs2 => exact ⟨rfl, by rw [hme], her⟩

/-- Warnings are only ever appended by the loop step. -/
theorem buildStep_warnings_mono (mode : BuildMode) (force : Bool)
    (src : ParsedSources) (language : String) (st : BuildState) (w : String)
    (h : w ∈ st.warnings) :
    w ∈ (buildStep mode force src st language).warnings := by
  unfold buildStep
  dsimp only
  split
  · split
    · exact h
    · exact List.mem_append_left _ h
  · split
    · exact List.mem_append_left _ h
    · split
      · exact h
      · split
        · exact h
        · exact h

/-- Errors are only ever appended by the loop step. -/
theorem buildStep_errors_mono (mode : BuildMode) (force : Bool)
    (src : ParsedSources) (language : String) (st : BuildState) (e : String)
    (h : e ∈ st.errors) :
    e ∈ (buildStep mode force src st language).errors := by
  unfold buildStep
  dsimp only
  split
  · split
    · exact List.mem_append_left _ h
    · exact h
  · split
    · exact h
    · split
      · exact List.mem_append_left _ h
      · split
        · exact List.mem_append_left _ h
        · exact h

/-- Counterpart of `buildStep_core` for the warning log: the step's
file system, manifest and warning outputs depend only on the state's
file system, manifest and warnings. -/
theorem buildStep_core_warnings (mode : BuildMode) (force : Bool)
    (src : ParsedSources) (language : String) (s1 s2 : BuildState)
    (hfs : s1.fs = s2.fs) (hme : s1.manifestEntries = s2.manifestEntries)
    (hw : s1.warnings = s2.warnings) :
    (buildStep mode force src s1 language).fs =
      (buildStep mode force src s2 language).fs ∧
    (buildStep mode force src s1 language).manifestEntries =
      (buildStep mode force src s2 language).manifestEntries ∧
    (buildStep mode force src s1 language).warnings =
      (buildStep mode force src s2 language).warnings := by
  unfold buildStep
  cases hrb : runBuilder mode src language with
  | none =>
    by_cases hp : language ∈ OBJECT_PROTOTYPE_KEYS
    · simp only [if_pos hp]
      exact ⟨hfs, hme, hw⟩
    · simp only [if_neg hp]
      exact ⟨hfs, hme, by rw [hw]⟩
  | some result =>
    by_cases hlen : result.entries.length = 0
    · simp only [if_pos hlen]
      exact ⟨hfs, hme, by rw [hw]⟩
    · simp only [if_neg hlen]
      rw [hfs]
      cases hws : writeSqliteFS s2.fs language result.entries
          (language ++ ".sqlite") force with
      | error msg => exact ⟨rfl, hme, hw⟩
      | ok pr =>
        obtain ⟨fs1, count⟩ := pr
        dsimp only
        cases hwg : writeGzipJsonFS fs1 (language ++ ".json.gz")
            result.entries force with
        | error msg => exact ⟨rfl, hme, hw⟩
        | ok fs2 => exact ⟨rfl, by rw [hme], hw⟩

/-- Every recorded manifest entry names a language with a registered
builder strategy. -/
theorem buildStep_manifest_registered (mode : BuildMode) (force : Bool)
    (src : ParsedSources) (language : String) (st : BuildState)
    (h : ∀ m ∈ st.manifestEntries, (runBuilder mode src m.language).isSome = true) :
    ∀ m ∈ (buildStep mode force src st language).manifestEntries,
      (runBuilder mode src m.language).isSome = true := by
  unfold buildStep
  dsimp only
  cases hrb : runBuilder mode src language with
  | none =>
    intro m hm
    by_cases hp : language ∈ OBJECT_PROTOTYPE_KEYS
    · simp only [if_pos hp] at hm
      exact h m hm
    · simp only [if_neg hp] at hm
      exact h m hm
  | some result =>
    dsimp only
    split
    · exact h
    · split
      · exact h
      · intro m hm
        split at hm
        · exact h m hm
        · rcases List.mem_append.mp hm with hold | hnew
          · exact h m hold
          · rcases List.mem_singleton.mp hnew with rfl
            simp [hrb]

theorem buildRun_manifest_registered (mode : BuildMode) (force : Bool)
    (src : ParsedSources) (languages : List String) (fs0 : FS) :
    ∀ m ∈ (buildRun mode force src languages fs0).manifestEntries,
      (runBuilder mode src m.language).isSome = true := by
  unfold buildRun
  apply foldl_preserve_mem (buildStep mode force src)
    (fun st => ∀ m ∈ st.manifestEntries, (runBuilder mode src m.language).isSome = true)
  · intro s a _ hP
    exact buildStep_manifest_registered mode force src a s hP
  · intro m hm
    simp at hm

/-- Claim C8 counterexample: `toString` has no registered builder
strategy, yet requesting it does not produce the unsupported-language
warning and does not leave the error log empty — the property access
`builders["toString"]` resolves the truthy `Object.prototype.toString`,
the `!builder` guard passes, and the invocation's `TypeError` is caught
and logged as a per-language build error. -/
theorem claim8_unsupported_counterexample :
    runBuilder .sample (mkParsedSources [] "" []) "toString" = none ∧
    ("[dictionary:build] Unsupported language \"" ++ "toString" ++ "\", skipping.") ∉
      (buildRun .sample false (mkParsedSources [] "" []) ["toString"] []).warnings ∧
    (buildRun .sample false (mkParsedSources [] "" []) ["toString"] []).errors ≠ [] := by
  decide

/-- Claim C8 (amended): a requested identifier that carries no builder
strategy is always skipped with no manifest entry, but in one of two
ways.  When the identifier is not a property name of
`Object.prototype`, the lookup is falsy and the orchestrator warns and
skips without raising an error: file system, manifest and error log are
those of the run without the identifier, and the unsupported-language
warning is recorded (the original claim).  When it is such a property
name (`toString`, `constructor`, `__proto__`, …), the truthy inherited
member passes the `!builder` guard, its invocation throws a
`TypeError`, and the per-language catch logs an error instead of the
warning; the run still continues with the remaining languages. -/
theorem claim8_unregistered_language (mode : BuildMode) (force : Bool)
    (src : ParsedSources) (fs0 : FS) (pre post : List String) (language : String)
    (hunreg : runBuilder mode src language = none) :
    (language ∉ OBJECT_PROTOTYPE_KEYS →
      ((buildRun mode force src (pre ++ language :: post) fs0).fs =
         (buildRun mode force src (pre ++ post) fs0).fs ∧
       (buildRun mode force src (pre ++ language :: post) fs0).manifestEntries =
         (buildRun mode force src (pre ++ post) fs0).manifestEntries ∧
       (buildRun mode force src (pre ++ language :: post) fs0).errors =
         (buildRun mode force src (pre ++ post) fs0).errors ∧
       ("[dictionary:build] Unsupported language \"" ++ language ++ "\", skipping.") ∈
         (buildRun mode force src (pre ++ language :: post) fs0).warnings)) ∧
    (language ∈ OBJECT_PROTOTYPE_KEYS →
      ((buildRun mode force src (pre ++ language :: post) fs0).fs =
         (buildRun mode force src (pre ++ post) fs0).fs ∧
       (buildRun mode force src (pre ++ language :: post) fs0).manifestEntries =
         (buildRun mode force src (pre ++ post) fs0).manifestEntries ∧
       (buildRun mode force src (pre ++ language :: post) fs0).warnings =
         (buildRun mode force src (pre ++ post) fs0).warnings ∧
       ("[dictionary:build] Failed to build " ++ language ++ ": " ++
          inheritedMemberTypeError language) ∈
         (buildRun mode force src (pre ++ language :: post) fs0).errors)) ∧
    ∀ m ∈ (buildRun mode force src (pre ++ language :: post) fs0).manifestEntries,
      m.language ≠ language := by
  refine ⟨?_, ?_, ?_⟩
  · intro hnp
    have hstep : ∀ s : BuildState, buildStep mode force src s language =
        { s with warnings := s.warnings ++
            ["[dictionary:build] Unsupported language \"" ++ language ++ "\", skipping."] } := by
      intro s
      unfold buildStep
      simp only [hunreg, if_neg hnp]
    unfold buildRun
    rw [List.foldl_append, List.foldl_append, List.foldl_cons, hstep]
    set s0 : BuildState := { fs := fs0, manifestEntries := [], warnings := [], errors := [] }
    set sPre := pre.foldl (buildStep mode force src) s0 with hsPre
    have hrel := foldl_rel (buildStep mode force src)
      (fun a b : BuildState => a.fs = b.fs ∧ a.manifestEntries = b.manifestEntries ∧
        a.errors = b.errors) post
      (fun a b l hab => buildStep_core mode force src l a b hab.1 hab.2.1 hab.2.2)
      { sPre with warnings := sPre.warnings ++
          ["[dictionary:build] Unsupported language \"" ++ language ++ "\", skipping."] }
      sPre ⟨rfl, rfl, rfl⟩
    refine ⟨hrel.1, hrel.2.1, hrel.2.2, ?_⟩
    apply foldl_preserve_mem (buildStep mode force src)
      (fun st : BuildState =>
        ("[dictionary:build] Unsupported language \"" ++ language ++ "\", skipping.") ∈
          st.warnings)
    · intro s a _ hP
      exact buildStep_warnings_mono mode force src a s _ hP
    · exact List.mem_append_right _ (List.mem_singleton.mpr rfl)
  · intro hp
    have hstep : ∀ s : BuildState, buildStep mode force src s language =
        { s with errors := s.errors ++
            ["[dictionary:build] Failed to build " ++ language ++ ": " ++
              inheritedMemberTypeError language] } := by
      intro s
      unfold buildStep
      simp only [hunreg, if_pos hp]
    unfold buildRun
    rw [List.foldl_append, List.foldl_append, List.foldl_cons, hstep]
    set s0 : BuildState := { fs := fs0, manifestEntries := [], warnings := [], errors := [] }
    set sPre := pre.foldl (buildStep mode force src) s0 with hsPre
    have hrel := foldl_rel (buildStep mode force src)
      (fun a b : BuildState => a.fs = b.fs ∧ a.manifestEntries = b.manifestEntries ∧
        a.warnings = b.warnings) post
      (fun a b l hab => buildStep_core_warnings mode force src l a b hab.1 hab.2.1 hab.2.2)
      { sPre with errors := sPre.errors ++
          ["[dictionary:build] Failed to build " ++ language ++ ": " ++
            inheritedMemberTypeError language] }
      sPre ⟨rfl, rfl, rfl⟩
    refine ⟨hrel.1, hrel.2.1, hrel.2.2, ?_⟩
    apply foldl_preserve_mem (buildStep mode force src)
      (fun st : BuildState =>
        ("[dictionary:build] Failed to build " ++ language ++ ": " ++
          inheritedMemberTypeError language) ∈ st.errors)
    · intro s a _ hP
      exact buildStep_errors_mono mode force src a s _ hP
    · exact List.mem_append_right _ (List.mem_singleton.mpr rfl)
  · intro m hm heq
    have hreg := buildRun_manifest_registered mode force src
      (pre ++ language :: post) fs0 m hm
    rw [heq, hunreg] at hreg
    cases hreg

/-- Witness for the amended C8: the identifier "xx" is neither
registered nor an `Object.prototype` property name, so a sample run
warns, skips without error, continues with "zh", and records no
manifest entry for it. -/
theorem claim8_unregistered_language_witness :
    runBuilder .sample (mkParsedSources [] "" []) "xx" = none ∧
    ((("xx" : String) ∉ OBJECT_PROTOTYPE_KEYS →
      ((buildRun .sample false (mkParsedSources [] "" []) ["xx", "zh"] []).fs =
         (buildRun .sample false (mkParsedSources [] "" []) ["zh"] []).fs ∧
       (buildRun .sample false (mkParsedSources [] "" []) ["xx", "zh"] []).manifestEntries =
         (buildRun .sample false (mkParsedSources [] "" []) ["zh"] []).manifestEntries ∧
       (buildRun .sample false (mkParsedSources [] "" []) ["xx", "zh"] []).errors =
         (buildRun .sample false (mkParsedSources [] "" []) ["zh"] []).errors ∧
       ("[dictionary:build] Unsupported language \"" ++ "xx" ++ "\", skipping.") ∈
         (buildRun .sample false (mkParsedSources [] "" []) ["xx", "zh"] []).warnings)) ∧
     (("xx" : String) ∈ OBJECT_PROTOTYPE_KEYS →
      ((buildRun .sample false (mkParsedSources [] "" []) ["xx", "zh"] []).fs =
         (buildRun .sample false (mkParsedSources [] "" []) ["zh"] []).fs ∧
       (buildRun .sample false (mkParsedSources [] "" []) ["xx", "zh"] []).manifestEntries =
         (buildRun .sample false (mkParsedSources [] "" []) ["zh"] []).manifestEntries ∧
       (buildRun .sample false (mkParsedSources [] "" []) ["xx", "zh"] []).warnings =
         (buildRun .sample false (mkParsedSources [] "" []) ["zh"] []).warnings ∧
       ("[dictionary:build] Failed to build " ++ "xx" ++ ": " ++
          inheritedMemberTypeError "xx") ∈
         (buildRun .sample false (mkParsedSources [] "" []) ["xx", "zh"] []).errors)) ∧
     ∀ m ∈ (buildRun .sample false (mkParsedSources [] "" []) ["xx", "zh"] []).manifestEntries,
       m.language ≠ "xx") :=
  ⟨by decide, claim8_unregistered_language .sample false (mkParsedSources [] "" [])
    [] [] ["zh"] "xx" (by decide)⟩

/-- A manifest entry's link to its artifacts: its JSON checksum hashes
the full unfiltered entry list, its sqlite checksum hashes only the
filtered row payloads of that same list, and its recorded count is the
filtered row count — hence at most the snapshot's entry count. -/
def SnapshotLinked (m : ManifestEntry) : Prop :=
  ∃ es, m.jsonSha256 = some (.gzipJson es) ∧
    m.sqliteSha256 = some (.sqliteDb (sqlitePayloads m.language es)) ∧
    m.entries = (sqlitePayloads m.language es).length ∧
    m.entries ≤ es.length

theorem sqlitePayloads_length_le (language : String)
    (entries : List DictionaryEntry) :
    (sqlitePayloads language entries).length ≤ entries.length := by
  unfold sqlitePayloads
  calc (List.filter rowKept (entries.map (toRowPayload language))).length
      ≤ (entries.map (toRowPayload language)).length := List.length_filter_le _ _
    _ = entries.length := List.length_map _ _

theorem buildStep_manifest_snapshot (mode : BuildMode) (force : Bool)
    (src : ParsedSources) (language : String) (st : BuildState)
    (h : ∀ m ∈ st.manifestEntries, SnapshotLinked m) :
    ∀ m ∈ (buildStep mode force src st language).manifestEntries,
      SnapshotLinked m := by
  unfold buildStep
  dsimp only
  split
  · intro m hm
    rename_i language2 hrbeq
    by_cases hp : language ∈ OBJECT_PROTOTYPE_KEYS
    · simp only [if_pos hp] at hm
      exact h m hm
    · simp only [if_neg hp] at hm
      exact h m hm
  · split
    · exact h
    · intro m hm
      split at hm
      · exact h m hm
      · rename_i result hrbeq hlen x fs1 count hws
        split at hm
        · exact h m hm
        · rename_i x2 fs2 hwg
          rcases List.mem_append.mp hm with hold | hnew
          · exact h m hold
          · rcases List.mem_singleton.mp hnew with rfl
            obtain ⟨hs1, hs2, hs3⟩ := writeSqliteFS_ok _ _ _ _ _ _ _ hws
            obtain ⟨hg1, hg2⟩ := writeGzipJsonFS_ok _ _ _ _ _ hwg
            refine ⟨result.entries, hg1, ?_, hs2, ?_⟩
            · exact (hg2 _ (sqlite_json_path_ne language)).trans hs1
            · rw [hs2]
              exact sqlitePayloads_length_le language result.entries

theorem buildRun_manifest_snapshot (mode : BuildMode) (force : Bool)
    (src : ParsedSources) (languages : List String) (fs0 : FS) :
    ∀ m ∈ (buildRun mode force src languages fs0).manifestEntries,
      SnapshotLinked m := by
  unfold buildRun
  apply foldl_preserve_mem (buildStep mode force src)
    (fun st => ∀ m ∈ st.manifestEntries, SnapshotLinked m)
  · intro s a _ hP
    exact buildStep_manifest_snapshot mode force src a s hP
  · intro m hm
    simp at hm

/-- A sense-dump record whose English entry survives only in the JSON
snapshot for language `en`: its word "42" normalizes to the empty key
and it has no reading, so the sqlite row filter drops it. -/
def kaikkiRecord42 : KaikkiRecord :=
  { lang := "English", word := some "42", senses := [["number"]] }

/-- Claim C9: every manifest entry's compressed JSON snapshot holds the
builder's full unfiltered entry list while its recorded entry count is
the sqlite row count after the non-empty-normalized-key-or-reading
filter, so the count never exceeds — and can be strictly smaller than —
the snapshot's entry count, as the concrete production run over
`kaikkiRecord42` shows (manifest count 0, snapshot length 1). -/
theorem claim9_manifest_vs_snapshot (mode : BuildMode) (force : Bool)
    (src : ParsedSources) (languages : List String) (fs0 : FS)
    (m : ManifestEntry)
    (hm : m ∈ (buildRun mode force src languages fs0).manifestEntries) :
    SnapshotLinked m ∧
    (∃ es, fsGet (buildRun .production false
          (mkParsedSources [some kaikkiRecord42] "" []) ["en"] []).fs
        "en.json.gz" = some (.gzipJson es) ∧
      (buildRun .production false (mkParsedSources [some kaikkiRecord42] "" [])
          ["en"] []).manifestEntries.map ManifestEntry.entries = [0] ∧
      0 < es.length) := by
  refine ⟨buildRun_manifest_snapshot mode force src languages fs0 m hm, ?_⟩
  exact ⟨(parseKaikki [some kaikkiRecord42]).enEntries, by decide, by decide, by decide⟩

/-- Witness for C9: the manifest entry of the concrete `en` production
run over `kaikkiRecord42`. -/
theorem claim9_manifest_vs_snapshot_witness :
    ({ language := "en", entries := 0, sqlite := "en.sqlite",
       sqliteSha256 := some (.sqliteDb []), json := "en.json.gz",
       jsonSha256 := some (.gzipJson
         [{ word := "42", definitions := ["number"], forms := ["42"],
            source := some "Kaikki (Wiktionary, English edition) (English gloss)" }]),
       source := "Kaikki (Wiktionary, English edition) (English gloss)" } : ManifestEntry) ∈
      (buildRun .production false (mkParsedSources [some kaikkiRecord42] "" [])
        ["en"] []).manifestEntries ∧
    (SnapshotLinked
      { language := "en", entries := 0, sqlite := "en.sqlite",
        sqliteSha256 := some (.sqliteDb []), json := "en.json.gz",
        jsonSha256 := some (.gzipJson
          [{ word := "42", definitions := ["number"], forms := ["42"],
             source := some "Kaikki (Wiktionary, English edition) (English gloss)" }]),
        source := "Kaikki (Wiktionary, English edition) (English gloss)" } ∧
     (∃ es, fsGet (buildRun .production false
           (mkParsedSources [some kaikkiRecord42] "" []) ["en"] []).fs
         "en.json.gz" = some (.gzipJson es) ∧
       (buildRun .production false (mkParsedSources [some kaikkiRecord42] "" [])
           ["en"] []).manifestEntries.map ManifestEntry.entries = [0] ∧
       0 < es.length)) :=
  ⟨by decide,
    claim9_manifest_vs_snapshot .production false
      (mkParsedSources [some kaikkiRecord42] "" []) ["en"] [] _ (by decide)⟩

/-- Claim C10: whenever every supplied `--languages=` switch carries no
non-empty identifiers (for example `--languages=` or `--languages=,,`),
option parsing leaves the language list at the default of all five
supported identifiers. -/
theorem claim10_empty_languages_default (args : List String)
    (h : ∀ arg ∈ args, jsStartsWith arg "--languages=" = true →
      ((splitOnPred (fun c => c = ',') (jsDropChars arg "--languages=".length)).map
        jsTrim).filter (fun s => s ≠ "") = []) :
    (parseArgs args).languages = DEFAULT_LANGUAGES := by
  unfold parseArgs
  apply foldl_preserve_mem parseArgsStep
    (fun o : BuildOptions => o.languages = DEFAULT_LANGUAGES) args
  · intro s arg harg hs
    unfold parseArgsStep
    by_cases h1 : arg = "--sample"
    · rw [if_pos h1]
      exact hs
    · rw [if_neg h1]
      by_cases h2 : arg = "--force"
      · rw [if_pos h2]
        exact hs
      · rw [if_neg h2]
        by_cases h3 : jsStartsWith arg "--raw=" = true
        · rw [if_pos h3]
          exact hs
        · rw [if_neg h3]
          by_cases h4 : jsStartsWith arg "--languages=" = true
          · rw [if_pos h4]
            dsimp only
            rw [h arg harg h4]
            simp only [List.length_nil, ne_eq, not_true_eq_false, if_false]
            exact hs
          · rw [if_neg h4]
            exact hs
  · rfl

/-- Witness for C10: `--languages=,,` yields no identifiers and the
default list of five stands. -/
theorem claim10_empty_languages_default_witness :
    (∀ arg ∈ ["--languages=,,"], jsStartsWith arg "--languages=" = true →
      ((splitOnPred (fun c => c = ',') (jsDropChars arg "--languages=".length)).map
        jsTrim).filter (fun s => s ≠ "") = []) ∧
    (parseArgs ["--languages=,,"]).languages = DEFAULT_LANGUAGES :=
  ⟨by decide, claim10_empty_languages_default ["--languages=,,"] (by decide)⟩

end DictBuild
